import Mathlib

/-!
# Volume-binding capacity scorers

A shallow embedding of `pkg/scheduler/framework/plugins/volumebinding/scorer.go`:
the shaped scorer built by `buildScorerFunction` and the dynamic-provisioning
scorer `dynamicProvisionScorerImpl`, together with the Go run-time semantics the
two functions rely on (wrapping `int64` arithmetic, binary64 floating point with
round-to-nearest-even, `math.Round`, `math.Floor`, float-to-integer conversion).

Conventions of the embedding:

* an `int64` is an `Int`; every arithmetic operation that Go performs on
  `int64` values is followed by an explicit reduction into `[-2^63, 2^63)`;
* a `float64` is a `Float64`: an exact rational for a finite value, or one of
  the three special values.  Every operation rounds its exact result to the
  nearest binary64 number, ties to even, each operation on its own (no fused
  multiply-add).  Signed zeros are not distinguished:
  the only operation that can observe the sign of a zero is a division by it,
  and every divisor in `scorer.go` is the conversion of an integer, whose zero
  is the positive one;
* a Go map is an association list; a `range` loop over the map visits the list
  in order.  Go leaves the iteration order unspecified, so statements about a
  map are made for an arbitrary listing of it;
* a function's outcome is a `GoResult`, which tells a returned `int64` apart
  from a run-time panic and from a conversion whose result Go leaves to the
  implementation.
-/

namespace VolumeBinding

/-! ## Go `int64` arithmetic -/

/-- Reduction of an integer into the `int64` range `[-2^63, 2^63)` (two's complement). -/
def wrapInt64 (x : Int) : Int :=
  (x + 9223372036854775808) % 18446744073709551616 - 9223372036854775808

/-- The values an `int64` can hold. -/
def isInt64 (x : Int) : Prop :=
  -9223372036854775808 ≤ x ∧ x ≤ 9223372036854775807

instance (x : Int) : Decidable (isInt64 x) := by
  unfold isInt64; exact inferInstance

/-- Go `a + b` on `int64`. -/
def addInt64 (a b : Int) : Int := wrapInt64 (a + b)

/-- Go `a * b` on `int64`. -/
def mulInt64 (a b : Int) : Int := wrapInt64 (a * b)

/-- Outcome of running a Go function whose result type is `int64`. -/
inductive GoResult where
  /-- The function returned this value. -/
  | ok (v : Int)
  /-- The function stopped with a run-time panic. -/
  | panic
  /-- The function returned a value that the language leaves to the implementation
  (a floating-point value converted to an integer type that cannot represent it). -/
  | unspecified
deriving DecidableEq, Repr

/-- Go `a / b` on `int64`: the quotient truncated toward zero, a run-time panic when
the divisor is zero; `MinInt64 / -1` wraps around. -/
def divInt64 (a b : Int) : GoResult :=
  if b = 0 then GoResult.panic else GoResult.ok (wrapInt64 (Int.tdiv a b))

/-! ## Go `float64` arithmetic -/

/-- A binary64 value: a finite number, an infinity, or a NaN. -/
inductive Float64 where
  | finite (q : ℚ)
  | posInf
  | negInf
  | nan
deriving DecidableEq

namespace Float64

/-- Exponent of the binade of `q`: `⌊log₂ |q|⌋`, but never below the exponent
`-1022` of the smallest normal number (below it the spacing stays fixed). -/
def binade (q : ℚ) : Int := max (Int.log 2 |q|) (-1022)

/-- Spacing of the binary64 numbers in the binade of `q` (53 significant bits). -/
def ulp (q : ℚ) : ℚ := (2 : ℚ) ^ (binade q - 52)

/-- Nearest integer, ties to the even one. -/
def roundHalfEven (x : ℚ) : Int :=
  if x - ⌊x⌋ < 1 / 2 then ⌊x⌋
  else if 1 / 2 < x - ⌊x⌋ then ⌊x⌋ + 1
  else if ⌊x⌋ % 2 = 0 then ⌊x⌋ else ⌊x⌋ + 1

/-- Rounding of an exact result to binary64: nearest representable number, ties to
even, overflow to an infinity. -/
def ofRat (q : ℚ) : Float64 :=
  if (2 : ℚ) ^ (1024 : ℕ) ≤ |(roundHalfEven (q / ulp q) : ℚ) * ulp q| then
    (if 0 < q then posInf else negInf)
  else finite ((roundHalfEven (q / ulp q) : ℚ) * ulp q)

/-- Go `float64(n)` for an integer `n`. -/
def ofInt (n : Int) : Float64 := ofRat (n : ℚ)

/-- Go `x / y` on `float64`. -/
def div : Float64 → Float64 → Float64
  | finite a, finite b =>
    if b = 0 then (if a = 0 then nan else if 0 < a then posInf else negInf)
    else ofRat (a / b)
  | finite _, posInf => finite 0
  | finite _, negInf => finite 0
  | posInf, finite b => if 0 ≤ b then posInf else negInf
  | negInf, finite b => if 0 ≤ b then negInf else posInf
  | _, _ => nan

/-- Go `x * y` on `float64`. -/
def mul : Float64 → Float64 → Float64
  | finite a, finite b => ofRat (a * b)
  | finite a, posInf => if a = 0 then nan else if 0 < a then posInf else negInf
  | finite a, negInf => if a = 0 then nan else if 0 < a then negInf else posInf
  | posInf, finite b => if b = 0 then nan else if 0 < b then posInf else negInf
  | negInf, finite b => if b = 0 then nan else if 0 < b then negInf else posInf
  | posInf, posInf => posInf
  | posInf, negInf => negInf
  | negInf, posInf => negInf
  | negInf, negInf => posInf
  | _, _ => nan

/-- Go `x + y` on `float64`. -/
def add : Float64 → Float64 → Float64
  | finite a, finite b => ofRat (a + b)
  | finite _, posInf => posInf
  | finite _, negInf => negInf
  | posInf, finite _ => posInf
  | negInf, finite _ => negInf
  | posInf, posInf => posInf
  | negInf, negInf => negInf
  | _, _ => nan

/-- Nearest integer to a rational, ties away from zero. -/
def roundHalfAway (x : ℚ) : Int :=
  if 0 ≤ x then ⌊x + 1 / 2⌋ else -⌊-x + 1 / 2⌋

/-- Go `math.Round`: nearest integer, halfway cases away from zero; infinities and
NaN are returned unchanged. -/
def round : Float64 → Float64
  | finite q => finite (roundHalfAway q)
  | x => x

/-- Go `math.Floor`: greatest integer not above the argument; infinities and NaN
are returned unchanged. -/
def floor : Float64 → Float64
  | finite q => finite (⌊q⌋ : Int)
  | x => x

/-- Go `int64(x)` for a `float64`: the fraction is discarded (truncation toward
zero); when the truncated value does not fit in `int64`, or `x` is an infinity or
a NaN, the result is implementation-dependent. -/
def toInt64 : Float64 → GoResult
  | finite q =>
    if isInt64 (Int.tdiv q.num q.den) then GoResult.ok (Int.tdiv q.num q.den)
    else GoResult.unspecified
  | _ => GoResult.unspecified

end Float64

/-! ## Data model -/

/-- Aggregated demand and capacity of one storage class (`StorageResource`). -/
structure StorageResource where
  Requested : Int
  Capacity : Int
deriving DecidableEq, Repr

/-- The source's `map[string]*StorageResource`, listed entry by entry (every
pointer in the map is non-nil). -/
abbrev classResourceMap := List (String × StorageResource)

/-- The source's `volumeCapacityScorer`: `func(classResourceMap) int64`. -/
abbrev volumeCapacityScorer := classResourceMap → GoResult

/-- The part of a claim that the scorer reads: `*PVC.Spec.StorageClassName` (the
pointer is never nil: the caller guarantees a storage class name) and
`PVC.Spec.Resources.Requests[storage].Value()`. -/
structure PersistentVolumeClaim where
  StorageClassName : String
  Requested : Int
deriving DecidableEq, Repr

/-- One claim to be provisioned on the node: `Capacity` is `none` when the pointer
is nil, otherwise `Capacity.Capacity.Value()`. -/
structure DynamicProvision where
  PVC : PersistentVolumeClaim
  Capacity : Option Int
deriving DecidableEq, Repr

/-- One control point of a scoring shape (`helper.FunctionShapePoint`). -/
structure FunctionShapePoint where
  Utilization : Int
  Score : Int
deriving DecidableEq, Repr

/-- A scoring shape (`helper.FunctionShape`). -/
abbrev FunctionShape := List FunctionShapePoint

/-- The source's `dynamicProvisionScorer`: `func([]*DynamicProvision) int64`. -/
abbrev dynamicProvisionScorer := List DynamicProvision → GoResult

/-- Modelled from the spec: the constant `maxUtilization` is declared outside
`scorer.go`; the spec gives the maximum utilization value as 100. -/
def maxUtilization : Int := 100

/-- Evaluation of a shape at `p`, given the control point before the remaining ones. -/
def BuildBrokenLinearFunction.from (prev : FunctionShapePoint) :
    List FunctionShapePoint → Int → Int
  | [], _ => prev.Score
  | pt :: rest, p =>
    if p ≤ pt.Utilization then
      prev.Score +
        Int.tdiv ((pt.Score - prev.Score) * (p - prev.Utilization))
          (pt.Utilization - prev.Utilization)
    else BuildBrokenLinearFunction.from pt rest p

/-- Modelled from the spec: the piecewise-linear evaluator
`helper.BuildBrokenLinearFunction` is not part of `scorer.go`.  The spec describes a
shape as ordered control points `(utilization, score)` defining a piecewise-linear
mapping: the score of the first point up to its utilization, linear interpolation
(integer arithmetic) between neighbouring points, the score of the last point
beyond it. -/
def BuildBrokenLinearFunction (shape : FunctionShape) (p : Int) : Int :=
  match shape with
  | [] => 0
  | first :: rest =>
    if p ≤ first.Utilization then first.Score
    else BuildBrokenLinearFunction.from first rest p

/-! ## The shaped scorer -/

/-- The closure `f` of `buildScorerFunction`: the score of one class. -/
def buildScorerFunction.f (rawScoringFunction : Int → Int) (requested capacity : Int) :
    GoResult :=
  if capacity = 0 ∨ requested > capacity then
    GoResult.ok (rawScoringFunction maxUtilization)
  else
    match divInt64 (mulInt64 requested maxUtilization) capacity with
    | GoResult.ok u => GoResult.ok (rawScoringFunction u)
    | r => r

/-- The `range` loop of the returned scorer: `nodeScore += classScore` per class. -/
def buildScorerFunction.loop (rawScoringFunction : Int → Int) :
    classResourceMap → Int → GoResult
  | [], nodeScore => GoResult.ok nodeScore
  | (_, resource) :: rest, nodeScore =>
    match buildScorerFunction.f rawScoringFunction resource.Requested resource.Capacity with
    | GoResult.ok classScore =>
      buildScorerFunction.loop rawScoringFunction rest (addInt64 nodeScore classScore)
    | r => r

/-- The scorer returned by `buildScorerFunction`, for the shape evaluator
`rawScoringFunction` (in the source, `helper.BuildBrokenLinearFunction` applied to
the shape). -/
def buildScorerFunction (rawScoringFunction : Int → Int) : volumeCapacityScorer :=
  fun classResources =>
  if classResources.length = 0 then GoResult.ok 0
  else
    match buildScorerFunction.loop rawScoringFunction classResources 0 with
    | GoResult.ok nodeScore =>
      Float64.toInt64 (Float64.round
        (Float64.div (Float64.ofInt nodeScore) (Float64.ofInt classResources.length)))
    | r => r

/-- The scorer built from a shape, with the spec's piecewise-linear evaluator. -/
def buildScorerFunctionOfShape (scoringFunctionShape : FunctionShape) :
    volumeCapacityScorer :=
  buildScorerFunction (BuildBrokenLinearFunction scoringFunctionShape)

/-! ## The dynamic-provisioning scorer -/

/-- One iteration of the aggregation loop of `dynamicProvisionScorerImpl`. -/
def dynamicProvisionScorerImpl.step (classResources : classResourceMap)
    (provision : DynamicProvision) : classResourceMap :=
  match provision.Capacity with
  | none => classResources
  | some capacity =>
    let withEntry : classResourceMap :=
      if classResources.any (fun kv => kv.1 == provision.PVC.StorageClassName) then
        classResources
      else classResources ++ [(provision.PVC.StorageClassName, ⟨0, 0⟩)]
    withEntry.map (fun kv =>
      if kv.1 == provision.PVC.StorageClassName then
        (kv.1,
          { Requested := addInt64 kv.2.Requested provision.PVC.Requested,
            Capacity := if capacity > kv.2.Capacity then capacity else kv.2.Capacity })
      else kv)

/-- The map built by the first loop of `dynamicProvisionScorerImpl`. -/
def dynamicProvisionScorerImpl.aggregate (provisions : List DynamicProvision) :
    classResourceMap :=
  provisions.foldl dynamicProvisionScorerImpl.step []

/-- The second loop of `dynamicProvisionScorerImpl`:
`score += (float64(Requested) / float64(Capacity)) * 100` per class. -/
def dynamicProvisionScorerImpl.sumLoop : classResourceMap → Float64 → Float64
  | [], score => score
  | (_, resource) :: rest, score =>
    dynamicProvisionScorerImpl.sumLoop rest
      (Float64.add score
        (Float64.mul
          (Float64.div (Float64.ofInt resource.Requested) (Float64.ofInt resource.Capacity))
          (Float64.finite 100)))

/-- The part of `dynamicProvisionScorerImpl` after the aggregation, for a listing of
the aggregated map. -/
def dynamicProvisionScorerImpl.score (classResources : classResourceMap) : GoResult :=
  if classResources.length = 0 then GoResult.ok 0
  else
    Float64.toInt64 (Float64.floor
      (Float64.div (dynamicProvisionScorerImpl.sumLoop classResources (Float64.finite 0))
        (Float64.ofInt classResources.length)))

/-- The source's `dynamicProvisionScorerImpl`. -/
def dynamicProvisionScorerImpl : dynamicProvisionScorer :=
  fun provisions =>
  dynamicProvisionScorerImpl.score (dynamicProvisionScorerImpl.aggregate provisions)

/-! ## Auxiliary definitions used in the statements -/

/-- Go unary minus on `float64`. -/
def Float64.neg : Float64 → Float64
  | Float64.finite q => Float64.finite (-q)
  | Float64.posInf => Float64.negInf
  | Float64.negInf => Float64.posInf
  | Float64.nan => Float64.nan

/-- The value returned by the closure `f`, which never panics. -/
def classScoreValue (rawScoringFunction : Int → Int) (requested capacity : Int) : Int :=
  if capacity = 0 ∨ requested > capacity then rawScoringFunction maxUtilization
  else rawScoringFunction (wrapInt64 (Int.tdiv (mulInt64 requested maxUtilization) capacity))

/-- The requests of a storage class that carry capacityInfo, as pairs
`(requestedCapacity, capacityValue)`, in request order. -/
def classRequests (provisions : List DynamicProvision) (storageClass : String) :
    List (Int × Int) :=
  provisions.filterMap (fun p =>
    if p.PVC.StorageClassName = storageClass then
      p.Capacity.map (fun capacity => (p.PVC.Requested, capacity))
    else none)

/-- Go `classResources[class]`: the entry of a class in a listing of the map. -/
def classEntry : classResourceMap → String → Option StorageResource
  | [], _ => none
  | (k, v) :: rest, c => if k = c then some v else classEntry rest c

/-- The entry of one class after processing its requests `rs`, starting from `entry`. -/
def foldEntry (entry : Option StorageResource) (rs : List (Int × Int)) :
    Option StorageResource :=
  rs.foldl (fun o rc =>
    some { Requested := addInt64 (o.getD ⟨0, 0⟩).Requested rc.1,
           Capacity := if rc.2 > (o.getD ⟨0, 0⟩).Capacity then rc.2
                       else (o.getD ⟨0, 0⟩).Capacity }) entry

/-! # Theorems -/

/-! ## Facts about `int64` arithmetic -/

theorem wrapInt64_of_isInt64 {x : Int} (h : isInt64 x) : wrapInt64 x = x := by
  unfold isInt64 at h
  unfold wrapInt64
  omega

theorem isInt64_wrapInt64 (x : Int) : isInt64 (wrapInt64 x) := by
  unfold isInt64 wrapInt64
  omega

theorem wrapInt64_add_wrapInt64 (a b : Int) : wrapInt64 (wrapInt64 a + b) = wrapInt64 (a + b) := by
  unfold wrapInt64
  omega

theorem tdiv_abs_le (a b : Int) : |Int.tdiv a b| ≤ |a| := by
  rw [Int.abs_eq_natAbs, Int.abs_eq_natAbs, Int.natAbs_tdiv]
  exact_mod_cast Nat.div_le_self _ _

/-! ## The per-class score -/

theorem f_eq_ok (raw : Int → Int) (requested capacity : Int) :
    buildScorerFunction.f raw requested capacity
      = GoResult.ok (classScoreValue raw requested capacity) := by
  unfold buildScorerFunction.f classScoreValue
  by_cases h : capacity = 0 ∨ requested > capacity
  · simp [h]
  · have hc : capacity ≠ 0 := fun hc => h (Or.inl hc)
    rw [if_neg h, if_neg h]
    simp [divInt64, hc]

theorem loop_eq_foldl (raw : Int → Int) (m : classResourceMap) (acc : Int) :
    buildScorerFunction.loop raw m acc
      = GoResult.ok (m.foldl (fun a kv => addInt64 a
          (classScoreValue raw kv.2.Requested kv.2.Capacity)) acc) := by
  induction m generalizing acc with
  | nil => rfl
  | cons kv rest ih =>
    obtain ⟨k, resource⟩ := kv
    simp only [buildScorerFunction.loop, f_eq_ok, List.foldl_cons]
    exact ih _

/-- The per-class score of a class below saturation whose `Requested * 100` fits in an
`int64`. -/
theorem f_of_fits (raw : Int → Int) (requested capacity : Int) (hcap : capacity ≠ 0)
    (hreq : ¬ requested > capacity) (hfit : isInt64 (requested * 100)) :
    buildScorerFunction.f raw requested capacity
      = GoResult.ok (raw (Int.tdiv (requested * 100) capacity)) := by
  have hno : ¬ (capacity = 0 ∨ requested > capacity) := fun h => h.elim hcap hreq
  rw [f_eq_ok]
  unfold classScoreValue
  rw [if_neg hno]
  have hmul : mulInt64 requested maxUtilization = requested * 100 := by
    unfold mulInt64 maxUtilization
    exact wrapInt64_of_isInt64 hfit
  rw [hmul]
  have hq : isInt64 (Int.tdiv (requested * 100) capacity) := by
    have hle := tdiv_abs_le (requested * 100) capacity
    unfold isInt64 at hfit ⊢
    rw [abs_le] at hle
    rcases abs_cases (requested * 100) with ⟨h1, _⟩ | ⟨h1, _⟩ <;> rw [h1] at hle <;>
      constructor <;> omega
  rw [wrapInt64_of_isInt64 hq]

namespace Float64

/-! ## Facts about rounding -/

theorem roundHalfEven_mem (x : ℚ) : roundHalfEven x = ⌊x⌋ ∨ roundHalfEven x = ⌊x⌋ + 1 := by
  unfold roundHalfEven
  split_ifs <;> simp

theorem le_roundHalfEven {a : Int} {x : ℚ} (h : (a : ℚ) ≤ x) : a ≤ roundHalfEven x := by
  have hfl : a ≤ ⌊x⌋ := Int.le_floor.mpr h
  rcases roundHalfEven_mem x with h1 | h1 <;> omega

theorem roundHalfEven_lt {b : Int} {x : ℚ} (h : x < (b : ℚ) - 1 / 2) : roundHalfEven x < b := by
  have hfx : (⌊x⌋ : ℚ) ≤ x := Int.floor_le x
  unfold roundHalfEven
  split_ifs with h1 h2 h3
  · have : (⌊x⌋ : ℚ) < (b : ℚ) := by linarith
    exact_mod_cast this
  · have : ((⌊x⌋ + 1 : Int) : ℚ) < (b : ℚ) := by push_cast; linarith
    exact_mod_cast this
  · have : (⌊x⌋ : ℚ) < (b : ℚ) := by linarith
    exact_mod_cast this
  · have : ((⌊x⌋ + 1 : Int) : ℚ) < (b : ℚ) := by push_cast; linarith
    exact_mod_cast this

theorem roundHalfEven_intCast (a : Int) : roundHalfEven (a : ℚ) = a := by
  unfold roundHalfEven
  simp

theorem abs_roundHalfEven_sub_le (x : ℚ) : |(roundHalfEven x : ℚ) - x| ≤ 1 / 2 := by
  have hfx : (⌊x⌋ : ℚ) ≤ x := Int.floor_le x
  have hxf : x < (⌊x⌋ : ℚ) + 1 := Int.lt_floor_add_one x
  rw [abs_le]
  unfold roundHalfEven
  split_ifs with h1 h2 h3 <;> push_cast <;> constructor <;> linarith

theorem roundHalfEven_neg (x : ℚ) : roundHalfEven (-x) = -roundHalfEven x := by
  have hfx : (⌊x⌋ : ℚ) ≤ x := Int.floor_le x
  have hxf : x < (⌊x⌋ : ℚ) + 1 := Int.lt_floor_add_one x
  by_cases hint : x = (⌊x⌋ : ℚ)
  · rw [hint, ← Int.cast_neg, roundHalfEven_intCast, roundHalfEven_intCast]
  · have hlt : (⌊x⌋ : ℚ) < x := lt_of_le_of_ne hfx (Ne.symm hint)
    have hneg : ⌊-x⌋ = -⌊x⌋ - 1 := by
      rw [Int.floor_eq_iff]
      push_cast
      constructor <;> linarith
    unfold roundHalfEven
    rw [hneg]
    push_cast
    by_cases h1 : x - (⌊x⌋ : ℚ) < 1 / 2
    · have h2 : ¬ (-x - (-(⌊x⌋ : ℚ) - 1) < 1 / 2) := by linarith
      have h3 : (1 : ℚ) / 2 < -x - (-(⌊x⌋ : ℚ) - 1) := by linarith
      rw [if_pos h1, if_neg h2, if_pos h3]
      omega
    · by_cases h2 : (1 : ℚ) / 2 < x - (⌊x⌋ : ℚ)
      · have h3 : -x - (-(⌊x⌋ : ℚ) - 1) < 1 / 2 := by linarith
        rw [if_neg h1, if_pos h2, if_pos h3]
        omega
      · have h3 : ¬ (-x - (-(⌊x⌋ : ℚ) - 1) < 1 / 2) := by linarith
        have h4 : ¬ ((1 : ℚ) / 2 < -x - (-(⌊x⌋ : ℚ) - 1)) := by linarith
        rw [if_neg h1, if_neg h2, if_neg h3, if_neg h4]
        split_ifs <;> omega

theorem roundHalfAway_neg (x : ℚ) : roundHalfAway (-x) = -roundHalfAway x := by
  unfold roundHalfAway
  rcases lt_trichotomy x 0 with h | h | h
  · have h1 : (0 : ℚ) ≤ -x := by linarith
    have h2 : ¬ (0 : ℚ) ≤ x := by linarith
    rw [if_pos h1, if_neg h2]
    simp
  · subst h
    norm_num
  · have h1 : ¬ (0 : ℚ) ≤ -x := by linarith
    have h2 : (0 : ℚ) ≤ x := by linarith
    rw [if_neg h1, if_pos h2]
    simp

theorem roundHalfAway_eq_zero {y : ℚ} (h : |y| < 1 / 2) : roundHalfAway y = 0 := by
  rw [abs_lt] at h
  unfold roundHalfAway
  split_ifs with h0
  · rw [Int.floor_eq_iff]; push_cast; constructor <;> linarith
  · have : ⌊-y + 1 / 2⌋ = 0 := by
      rw [Int.floor_eq_iff]; push_cast; constructor <;> linarith
    rw [this]; rfl


theorem ulp_pos (q : ℚ) : 0 < ulp q := by
  unfold ulp
  positivity

theorem ulp_neg (q : ℚ) : ulp (-q) = ulp q := by
  unfold ulp binade
  rw [abs_neg]

theorem ofRat_zero : ofRat 0 = finite 0 := by
  have h : roundHalfEven (0 / ulp 0) = 0 := by
    rw [zero_div]
    exact_mod_cast roundHalfEven_intCast 0
  unfold ofRat
  rw [h]
  norm_num

theorem ofRat_neg (q : ℚ) : ofRat (-q) = neg (ofRat q) := by
  rcases eq_or_ne q 0 with h0 | h0
  · subst h0
    rw [neg_zero, ofRat_zero]
    simp [neg]
  · unfold ofRat
    rw [ulp_neg, neg_div, roundHalfEven_neg, Int.cast_neg, neg_mul, abs_neg]
    by_cases hov : (2 : ℚ) ^ (1024 : ℕ) ≤ |(roundHalfEven (q / ulp q) : ℚ) * ulp q|
    · rw [if_pos hov, if_pos hov]
      rcases lt_or_gt_of_ne h0 with hneg | hpos
      · have h1 : (0 : ℚ) < -q := by linarith
        have h2 : ¬ (0 : ℚ) < q := by linarith
        rw [if_pos h1, if_neg h2]
        rfl
      · have h1 : ¬ (0 : ℚ) < -q := by linarith
        rw [if_neg h1, if_pos hpos]
        rfl
    · rw [if_neg hov, if_neg hov]
      rfl

theorem ofRat_of_lt {q : ℚ}
    (h : |(roundHalfEven (q / ulp q) : ℚ) * ulp q| < (2 : ℚ) ^ (1024 : ℕ)) :
    ofRat q = finite ((roundHalfEven (q / ulp q) : ℚ) * ulp q) := by
  unfold ofRat
  rw [if_neg (not_le.mpr h)]

theorem two_zpow_log_le {q : ℚ} (hq : 0 < q) : (2 : ℚ) ^ Int.log 2 q ≤ q := by
  have := Int.zpow_log_le_self (b := 2) (by norm_num) hq
  simpa using this

theorem log_lt_of_lt_two_zpow {q : ℚ} (hq : 0 < q) {x : Int} (h : q < (2 : ℚ) ^ x) :
    Int.log 2 q < x := by
  have := (Int.lt_zpow_iff_log_lt (b := 2) (by norm_num) (x := x) hq).mp (by simpa using h)
  exact this

theorem le_log_of_two_zpow_le {q : ℚ} (hq : 0 < q) {x : Int} (h : (2 : ℚ) ^ x ≤ q) :
    x ≤ Int.log 2 q := by
  have := (Int.zpow_le_iff_le_log (b := 2) (by norm_num) (x := x) hq).mp (by simpa using h)
  exact this

theorem binade_of_pos {q : ℚ} (hq : 0 < q) (h : -1022 ≤ Int.log 2 q) :
    binade q = Int.log 2 q := by
  unfold binade
  rw [abs_of_pos hq]
  exact max_eq_left h

/-- A positive integer below `2^53` converts to `float64` exactly. -/
theorem ofRat_natCast {m : ℕ} (h0 : 0 < m) (h : m < 2 ^ 53) : ofRat (m : ℚ) = finite (m : ℚ) := by
  have hq : (0 : ℚ) < (m : ℚ) := by exact_mod_cast h0
  have hlog : Int.log 2 (m : ℚ) = (Nat.log 2 m : Int) := Int.log_natCast 2 m
  have hL : Nat.log 2 m < 53 := Nat.log_lt_of_lt_pow (by omega) h
  have hb : binade (m : ℚ) = (Nat.log 2 m : Int) := by
    rw [binade_of_pos hq (by rw [hlog]; omega), hlog]
  obtain ⟨k, hk⟩ : ∃ k : ℕ, (Nat.log 2 m : Int) - 52 = -(k : Int) :=
    ⟨52 - Nat.log 2 m, by omega⟩
  have hu : ulp (m : ℚ) = ((2 : ℚ) ^ k)⁻¹ := by
    unfold ulp
    rw [hb, hk, zpow_neg, zpow_natCast]
  have hP : (0 : ℚ) < (2 : ℚ) ^ k := by positivity
  have hX : (m : ℚ) / ulp (m : ℚ) = ((m * 2 ^ k : Int) : ℚ) := by
    rw [hu, div_inv_eq_mul]
    push_cast
    rfl
  have hy : (roundHalfEven ((m : ℚ) / ulp (m : ℚ)) : ℚ) * ulp (m : ℚ) = (m : ℚ) := by
    rw [hX, roundHalfEven_intCast, hu]
    push_cast
    field_simp
  have hlt : |(roundHalfEven ((m : ℚ) / ulp (m : ℚ)) : ℚ) * ulp (m : ℚ)| < (2 : ℚ) ^ (1024 : ℕ) := by
    rw [hy, abs_of_pos hq]
    have h1 : (m : ℚ) < (2 : ℚ) ^ (53 : ℕ) := by exact_mod_cast h
    have h2 : (2 : ℚ) ^ (53 : ℕ) < (2 : ℚ) ^ (1024 : ℕ) := by norm_num
    linarith
  rw [ofRat_of_lt hlt, hy]

/-- An integer of magnitude below `2^53` converts to `float64` exactly. -/
theorem ofInt_exact {n : Int} (h : |n| < 2 ^ 53) : ofInt n = finite (n : ℚ) := by
  unfold ofInt
  rcases lt_trichotomy n 0 with hn | hn | hn
  · obtain ⟨m, hm⟩ : ∃ m : ℕ, n = -(m : Int) := ⟨n.natAbs, by omega⟩
    have hm0 : 0 < m := by omega
    have hm1 : m < 2 ^ 53 := by
      rw [hm, abs_neg] at h
      have : ((m : Int)) < 2 ^ 53 := by
        rwa [abs_of_nonneg (by omega)] at h
      exact_mod_cast this
    rw [hm]
    push_cast
    rw [ofRat_neg, ofRat_natCast hm0 hm1]
    rfl
  · subst hn
    simpa using ofRat_zero
  · obtain ⟨m, hm⟩ : ∃ m : ℕ, n = (m : Int) := ⟨n.natAbs, by omega⟩
    have hm0 : 0 < m := by omega
    have hm1 : m < 2 ^ 53 := by
      rw [hm] at h
      have : ((m : Int)) < 2 ^ 53 := by
        rwa [abs_of_nonneg (by omega)] at h
      exact_mod_cast this
    rw [hm]
    push_cast
    exact ofRat_natCast hm0 hm1


/-- The quotient of a positive integer below `2^52` by a positive integer below `2^53`,
once rounded to `float64`, still rounds to the same nearest integer as the exact
quotient. -/
theorem ofRat_div_pos {n w : ℕ} (hn0 : 0 < n) (hn : n < 2 ^ 52) (hw0 : 0 < w)
    (hw : w < 2 ^ 53) :
    ∃ y : ℚ, ofRat ((n : ℚ) / (w : ℚ)) = finite y ∧
      roundHalfAway y = roundHalfAway ((n : ℚ) / (w : ℚ)) := by
  have hnq : (0 : ℚ) < (n : ℚ) := by exact_mod_cast hn0
  have hwq : (0 : ℚ) < (w : ℚ) := by exact_mod_cast hw0
  have hn52 : (n : ℚ) < (2 : ℚ) ^ (52 : ℕ) := by exact_mod_cast hn
  have hw53 : (w : ℚ) < (2 : ℚ) ^ (53 : ℕ) := by exact_mod_cast hw
  have hn1 : (1 : ℚ) ≤ (n : ℚ) := by exact_mod_cast hn0
  have hw1 : (1 : ℚ) ≤ (w : ℚ) := by exact_mod_cast hw0
  set q : ℚ := (n : ℚ) / (w : ℚ) with hqdef
  have hq : 0 < q := div_pos hnq hwq
  have hqn : q ≤ (n : ℚ) := div_le_self hnq.le hw1
  -- the binade of the quotient
  have he_hi : Int.log 2 q < 52 := by
    apply log_lt_of_lt_two_zpow hq
    have : (2 : ℚ) ^ (52 : Int) = (2 : ℚ) ^ (52 : ℕ) := by norm_num
    rw [this]
    linarith
  have he_lo : -53 ≤ Int.log 2 q := by
    apply le_log_of_two_zpow_le hq
    have h1 : (2 : ℚ) ^ (-53 : Int) = 1 / (2 : ℚ) ^ (53 : ℕ) := by
      rw [zpow_neg, one_div]
      norm_num
    rw [h1, hqdef, div_le_div_iff₀ (by positivity) hwq]
    have h2 : (2 : ℚ) ^ (53 : ℕ) ≤ (n : ℚ) * (2 : ℚ) ^ (53 : ℕ) :=
      le_mul_of_one_le_left (by positivity) hn1
    linarith
  obtain ⟨k, hk⟩ : ∃ k : ℕ, Int.log 2 q = 51 - (k : Int) :=
    ⟨(51 - Int.log 2 q).toNat, by omega⟩
  have hP : (0 : ℚ) < (2 : ℚ) ^ k := by positivity
  have hb : binade q = 51 - (k : Int) := by
    rw [binade_of_pos hq (by omega), hk]
  have hu : ulp q = (2 * (2 : ℚ) ^ k)⁻¹ := by
    unfold ulp
    rw [hb]
    have : (51 : Int) - (k : Int) - 52 = -((k + 1 : ℕ) : Int) := by push_cast; ring
    rw [this, zpow_neg, zpow_natCast, pow_succ, mul_comm]
  have hX : q / ulp q = q * (2 * (2 : ℚ) ^ k) := by
    rw [hu, div_inv_eq_mul]
  -- the divisor is small against the spacing
  have hlo : (2 : ℚ) ^ (51 : ℕ) / (2 : ℚ) ^ k ≤ q := by
    have h1 := two_zpow_log_le hq
    rw [hk, zpow_sub₀ (by norm_num : (2 : ℚ) ≠ 0), zpow_natCast] at h1
    have h2 : (2 : ℚ) ^ (51 : Int) = (2 : ℚ) ^ (51 : ℕ) := by norm_num
    rwa [h2] at h1
  have hwP : (w : ℚ) < 2 * (2 : ℚ) ^ k := by
    rw [hqdef, div_le_div_iff₀ hP hwq] at hlo
    have h52 : (2 : ℚ) ^ (52 : ℕ) = 2 * (2 : ℚ) ^ (51 : ℕ) := by norm_num
    have h3 : (n : ℚ) * (2 : ℚ) ^ k < (2 : ℚ) ^ (52 : ℕ) * (2 : ℚ) ^ k :=
      mul_lt_mul_of_pos_right hn52 hP
    have h4 : (2 : ℚ) ^ (51 : ℕ) * ((w : ℚ) - 2 * (2 : ℚ) ^ k) < 0 := by
      rw [h52] at h3
      linarith
    have h51 : (0 : ℚ) < (2 : ℚ) ^ (51 : ℕ) := by positivity
    have h5 : (w : ℚ) - 2 * (2 : ℚ) ^ k < 0 := by
      by_contra hcon
      exact absurd h4 (not_lt.mpr (mul_nonneg h51.le (not_lt.mp hcon)))
    linarith
  -- the exact rounding
  set r : Int := ⌊q + 1 / 2⌋ with hrdef
  have hr_le : (r : ℚ) ≤ q + 1 / 2 := Int.floor_le _
  have hr_lt : q + 1 / 2 < (r : ℚ) + 1 := Int.lt_floor_add_one _
  have hr0 : 0 ≤ r := Int.floor_nonneg.mpr (by linarith)
  have hqw : q * (w : ℚ) = (n : ℚ) := by rw [hqdef]; field_simp
  have hgap : (1 : ℚ) ≤ ((2 * r + 1 : Int) : ℚ) * (w : ℚ) - 2 * (n : ℚ) := by
    have h1 : 2 * (n : ℚ) < ((2 * r + 1 : Int) : ℚ) * (w : ℚ) := by
      have h0 : 2 * q < 2 * (r : ℚ) + 1 := by linarith
      have h00 := mul_lt_mul_of_pos_right h0 hwq
      push_cast
      rw [← hqw]
      linarith
    have h2 : 2 * (n : Int) < (2 * r + 1) * (w : Int) := by exact_mod_cast h1
    have h3 : 2 * (n : Int) + 1 ≤ (2 * r + 1) * (w : Int) := by omega
    have h4 : 2 * (n : ℚ) + 1 ≤ ((2 * r + 1 : Int) : ℚ) * (w : ℚ) := by exact_mod_cast h3
    linarith
  -- bounds on the rounded scaled quotient
  have hA : ((2 * r - 1) * 2 ^ k : Int) ≤ roundHalfEven (q / ulp q) := by
    apply le_roundHalfEven
    rw [hX]
    push_cast
    have h0 : 2 * (r : ℚ) - 1 ≤ 2 * q := by linarith
    have h00 := mul_le_mul_of_nonneg_right h0 hP.le
    linarith
  have hB : roundHalfEven (q / ulp q) < ((2 * r + 1) * 2 ^ k : Int) := by
    apply roundHalfEven_lt
    rw [hX]
    push_cast
    have h1 : (1 : ℚ) / (w : ℚ) ≤ (2 * (r : ℚ) + 1) - 2 * q := by
      rw [div_le_iff₀ hwq]
      push_cast at hgap
      have h0 : ((2 * (r : ℚ) + 1) - 2 * q) * (w : ℚ)
          = (2 * (r : ℚ) + 1) * (w : ℚ) - 2 * (q * (w : ℚ)) := by ring
      rw [h0, hqw]
      linarith
    have h2 : (1 : ℚ) / 2 < (2 : ℚ) ^ k / (w : ℚ) := by
      rw [div_lt_div_iff₀ (by norm_num) hwq]
      linarith
    have h3 : (2 : ℚ) ^ k / (w : ℚ) ≤ ((2 * (r : ℚ) + 1) - 2 * q) * (2 : ℚ) ^ k := by
      have := mul_le_mul_of_nonneg_right h1 hP.le
      calc (2 : ℚ) ^ k / (w : ℚ) = 1 / (w : ℚ) * (2 : ℚ) ^ k := by ring
        _ ≤ ((2 * (r : ℚ) + 1) - 2 * q) * (2 : ℚ) ^ k := this
    have h4 : ((2 * (r : ℚ) + 1) - 2 * q) * (2 : ℚ) ^ k
        = (2 * (r : ℚ) + 1) * (2 : ℚ) ^ k - q * (2 * (2 : ℚ) ^ k) := by ring
    linarith
  have hC : 0 ≤ roundHalfEven (q / ulp q) := by
    apply le_roundHalfEven
    rw [hX]
    push_cast
    positivity
  set R : Int := roundHalfEven (q / ulp q) with hRdef
  have hB1 : R ≤ (2 * r + 1) * 2 ^ k - 1 := by omega
  have hAq : ((2 * (r : ℚ) - 1) * (2 : ℚ) ^ k) ≤ (R : ℚ) := by exact_mod_cast hA
  have hBq : (R : ℚ) ≤ (2 * (r : ℚ) + 1) * (2 : ℚ) ^ k - 1 := by exact_mod_cast hB1
  have hCq : (0 : ℚ) ≤ (R : ℚ) := by exact_mod_cast hC
  have hy_lo : (r : ℚ) - 1 / 2 ≤ (R : ℚ) * ulp q := by
    rw [hu, ← div_eq_mul_inv, le_div_iff₀ (by positivity)]
    have h1 : ((r : ℚ) - 1 / 2) * (2 * (2 : ℚ) ^ k) = (2 * (r : ℚ) - 1) * (2 : ℚ) ^ k := by ring
    linarith
  have hy_hi : (R : ℚ) * ulp q < (r : ℚ) + 1 / 2 := by
    rw [hu, ← div_eq_mul_inv, div_lt_iff₀ (by positivity)]
    have h1 : ((r : ℚ) + 1 / 2) * (2 * (2 : ℚ) ^ k) = (2 * (r : ℚ) + 1) * (2 : ℚ) ^ k := by ring
    linarith
  have hy0 : 0 ≤ (R : ℚ) * ulp q := mul_nonneg hCq (ulp_pos q).le
  have hlt : |(R : ℚ) * ulp q| < (2 : ℚ) ^ (1024 : ℕ) := by
    rw [abs_of_nonneg hy0]
    have h2 : (2 : ℚ) ^ (52 : ℕ) + 2 < (2 : ℚ) ^ (1024 : ℕ) := by norm_num
    linarith
  refine ⟨(R : ℚ) * ulp q, ofRat_of_lt hlt, ?_⟩
  unfold roundHalfAway
  rw [if_pos hy0, if_pos hq.le, ← hrdef, Int.floor_eq_iff]
  constructor <;> linarith


theorem abs_roundHalfAway_sub_le (x : ℚ) : |(roundHalfAway x : ℚ) - x| ≤ 1 / 2 := by
  rw [abs_le]
  unfold roundHalfAway
  split_ifs with h
  · have h1 : ((⌊x + 1 / 2⌋ : Int) : ℚ) ≤ x + 1 / 2 := Int.floor_le _
    have h2 : x + 1 / 2 < ((⌊x + 1 / 2⌋ : Int) : ℚ) + 1 := Int.lt_floor_add_one _
    constructor <;> linarith
  · have h1 : ((⌊-x + 1 / 2⌋ : Int) : ℚ) ≤ -x + 1 / 2 := Int.floor_le _
    have h2 : -x + 1 / 2 < ((⌊-x + 1 / 2⌋ : Int) : ℚ) + 1 := Int.lt_floor_add_one _
    push_cast
    constructor <;> linarith

theorem toInt64_intCast {r : Int} (h : isInt64 r) : toInt64 (finite (r : ℚ)) = GoResult.ok r := by
  unfold toInt64
  simp [h]

/-- The quotient of an integer of magnitude below `2^52` by a positive integer below
`2^53`, once rounded to `float64`, rounds to the same nearest integer as the exact
quotient. -/
theorem ofRat_div_small {n : Int} (hn : |n| < 2 ^ 52) {w : ℕ} (hw0 : 0 < w) (hw : w < 2 ^ 53) :
    ∃ y : ℚ, ofRat ((n : ℚ) / (w : ℚ)) = finite y ∧
      roundHalfAway y = roundHalfAway ((n : ℚ) / (w : ℚ)) := by
  rcases lt_trichotomy n 0 with h | h | h
  · obtain ⟨m, hm⟩ : ∃ m : ℕ, n = -(m : Int) := ⟨n.natAbs, by omega⟩
    have hm0 : 0 < m := by omega
    have hm1 : m < 2 ^ 52 := by
      rw [hm, abs_neg, abs_of_nonneg (by omega)] at hn
      exact_mod_cast hn
    obtain ⟨y, hy1, hy2⟩ := ofRat_div_pos hm0 hm1 hw0 hw
    refine ⟨-y, ?_, ?_⟩
    · rw [hm]
      push_cast
      rw [neg_div, ofRat_neg, hy1]
      rfl
    · rw [hm]
      push_cast
      rw [neg_div, roundHalfAway_neg, roundHalfAway_neg, hy2]
  · subst h
    refine ⟨0, ?_, ?_⟩
    · simpa using ofRat_zero
    · simp
  · obtain ⟨m, hm⟩ : ∃ m : ℕ, n = (m : Int) := ⟨n.natAbs, by omega⟩
    have hm0 : 0 < m := by omega
    have hm1 : m < 2 ^ 52 := by
      rw [hm, abs_of_nonneg (by omega)] at hn
      exact_mod_cast hn
    obtain ⟨y, hy1, hy2⟩ := ofRat_div_pos hm0 hm1 hw0 hw
    refine ⟨y, ?_, ?_⟩
    · rw [hm, Int.cast_natCast]
      exact hy1
    · rw [hm, Int.cast_natCast]
      exact hy2

/-- A quotient of magnitude at most `(2^52 - 1) / 2^53` rounds to a `float64` of
magnitude below one half. -/
theorem ofRat_lt_half {q : ℚ} (hq : |q| ≤ ((2 : ℚ) ^ (52 : ℕ) - 1) / (2 : ℚ) ^ (53 : ℕ)) :
    ∃ y : ℚ, ofRat q = finite y ∧ |y| < 1 / 2 := by
  rcases eq_or_ne q 0 with h0 | h0
  · subst h0
    exact ⟨0, ofRat_zero, by norm_num⟩
  · have habs : 0 < |q| := abs_pos.mpr h0
    have hhalf : |q| < (2 : ℚ) ^ (-1 : Int) := by
      have e1 : (2 : ℚ) ^ (-1 : Int) = 1 / 2 := by norm_num
      have e2 : ((2 : ℚ) ^ (52 : ℕ) - 1) / (2 : ℚ) ^ (53 : ℕ) < 1 / 2 := by norm_num
      rw [e1]
      linarith
    have hlog : Int.log 2 |q| < -1 := log_lt_of_lt_two_zpow habs hhalf
    have hb : binade q - 52 ≤ -54 := by
      unfold binade
      have : max (Int.log 2 |q|) (-1022) ≤ -2 := max_le (by omega) (by norm_num)
      omega
    have hu : ulp q ≤ 1 / (2 : ℚ) ^ (54 : ℕ) := by
      have e1 : (2 : ℚ) ^ (-54 : Int) = 1 / (2 : ℚ) ^ (54 : ℕ) := by
        rw [zpow_neg, one_div]
        norm_num
      rw [← e1]
      unfold ulp
      exact zpow_le_zpow_right₀ (by norm_num) hb
    have hupos := ulp_pos q
    have hX : q / ulp q * ulp q = q := by field_simp
    have herr : |(roundHalfEven (q / ulp q) : ℚ) * ulp q - q| ≤ ulp q / 2 := by
      have h1 := abs_roundHalfEven_sub_le (q / ulp q)
      have h2 : (roundHalfEven (q / ulp q) : ℚ) * ulp q - q
          = ((roundHalfEven (q / ulp q) : ℚ) - q / ulp q) * ulp q := by
        rw [sub_mul, hX]
      rw [h2, abs_mul, abs_of_pos hupos]
      have := mul_le_mul_of_nonneg_right h1 hupos.le
      linarith
    have hy : |(roundHalfEven (q / ulp q) : ℚ) * ulp q| < 1 / 2 := by
      have h1 : |(roundHalfEven (q / ulp q) : ℚ) * ulp q|
          ≤ |(roundHalfEven (q / ulp q) : ℚ) * ulp q - q| + |q| := by
        have := abs_add ((roundHalfEven (q / ulp q) : ℚ) * ulp q - q) q
        simpa using this
      have h2 : ((2 : ℚ) ^ (52 : ℕ) - 1) / (2 : ℚ) ^ (53 : ℕ) + 1 / (2 : ℚ) ^ (54 : ℕ) / 2
          < 1 / 2 := by norm_num
      linarith
    refine ⟨_, ofRat_of_lt ?_, hy⟩
    have : (1 : ℚ) / 2 < (2 : ℚ) ^ (1024 : ℕ) := by norm_num
    linarith

/-- A natural number from `2^53` on converts to a `float64` that is at least `2^53`. -/
theorem ofRat_natCast_large {w : ℕ} (hw : 2 ^ 53 ≤ w) :
    ofRat (w : ℚ) = posInf ∨ ∃ d : ℚ, ofRat (w : ℚ) = finite d ∧ (2 : ℚ) ^ (53 : ℕ) ≤ d := by
  have hw0 : 0 < w := lt_of_lt_of_le (by norm_num) hw
  have hq : (0 : ℚ) < (w : ℚ) := by exact_mod_cast hw0
  have hlog : Int.log 2 (w : ℚ) = (Nat.log 2 w : Int) := Int.log_natCast 2 w
  have hL : 53 ≤ Nat.log 2 w := Nat.le_log_of_pow_le (by norm_num) hw
  have hLw : 2 ^ Nat.log 2 w ≤ w := Nat.pow_log_le_self 2 (by omega)
  have hb : binade (w : ℚ) = (Nat.log 2 w : Int) := by
    rw [binade_of_pos hq (by rw [hlog]; omega), hlog]
  obtain ⟨k, hk⟩ : ∃ k : ℕ, Nat.log 2 w = k + 52 := ⟨Nat.log 2 w - 52, by omega⟩
  have hu : ulp (w : ℚ) = (2 : ℚ) ^ k := by
    unfold ulp
    rw [hb, hk]
    have : ((k + 52 : ℕ) : Int) - 52 = (k : Int) := by push_cast; ring
    rw [this, zpow_natCast]
  have hP : (0 : ℚ) < (2 : ℚ) ^ k := by positivity
  have hLq : (2 : ℚ) ^ (52 : ℕ) * (2 : ℚ) ^ k ≤ (w : ℚ) := by
    rw [hk, pow_add] at hLw
    have : ((2 ^ k * 2 ^ 52 : ℕ) : ℚ) ≤ (w : ℚ) := by exact_mod_cast hLw
    push_cast at this
    linarith
  have hR : ((2 ^ 52 : Int)) ≤ roundHalfEven ((w : ℚ) / ulp (w : ℚ)) := by
    apply le_roundHalfEven
    rw [hu, le_div_iff₀ hP]
    push_cast
    exact hLq
  have hRq : (2 : ℚ) ^ (52 : ℕ) ≤ (roundHalfEven ((w : ℚ) / ulp (w : ℚ)) : ℚ) := by
    exact_mod_cast hR
  have hy : (2 : ℚ) ^ (53 : ℕ) ≤ (roundHalfEven ((w : ℚ) / ulp (w : ℚ)) : ℚ) * ulp (w : ℚ) := by
    rw [hu] at hRq ⊢
    have h1 := mul_le_mul_of_nonneg_right hRq hP.le
    have h2 : (2 : ℚ) ^ (53 : ℕ) ≤ (2 : ℚ) ^ (52 : ℕ) * (2 : ℚ) ^ k := by
      have h3 : (2 : ℚ) ^ (1 : ℕ) ≤ (2 : ℚ) ^ k := by
        apply pow_le_pow_right₀ (by norm_num)
        omega
      have h4 : (2 : ℚ) ^ (53 : ℕ) = (2 : ℚ) ^ (52 : ℕ) * (2 : ℚ) ^ (1 : ℕ) := by norm_num
      rw [h4]
      exact mul_le_mul_of_nonneg_left h3 (by positivity)
    linarith
  unfold ofRat
  split_ifs with hov
  · exact Or.inl rfl
  · exact Or.inr ⟨_, rfl, hy⟩

end Float64

theorem Float64.div_finite (a b : ℚ) (hb : b ≠ 0) :
    Float64.div (Float64.finite a) (Float64.finite b) = Float64.ofRat (a / b) := by
  simp [Float64.div, hb]

theorem Float64.round_finite (q : ℚ) :
    Float64.round (Float64.finite q) = Float64.finite ((Float64.roundHalfAway q : Int) : ℚ) := rfl

theorem Float64.floor_finite (q : ℚ) :
    Float64.floor (Float64.finite q) = Float64.finite ((⌊q⌋ : Int) : ℚ) := rfl

/-- The last line of the shaped scorer, `int64(math.Round(float64(s) / float64(w)))`,
is the exact quotient rounded half away from zero when `|s| < 2^52`. -/
theorem Float64.round_div_ofInt {s : Int} (hs : |s| < 2 ^ 52) {w : ℕ} (hw0 : 0 < w) :
    Float64.toInt64 (Float64.round (Float64.div (Float64.ofInt s) (Float64.ofInt (w : Int))))
      = GoResult.ok (Float64.roundHalfAway ((s : ℚ) / (w : ℚ))) := by
  have hs53 : |s| < 2 ^ 53 := lt_trans hs (by norm_num)
  have hsq : |(s : ℚ)| < (2 : ℚ) ^ (52 : ℕ) := by exact_mod_cast hs
  have hwq : (0 : ℚ) < (w : ℚ) := by exact_mod_cast hw0
  have hw1 : (1 : ℚ) ≤ (w : ℚ) := by exact_mod_cast hw0
  -- the rounded quotient fits in an int64
  have hfit : isInt64 (Float64.roundHalfAway ((s : ℚ) / (w : ℚ))) := by
    have h1 := Float64.abs_roundHalfAway_sub_le ((s : ℚ) / (w : ℚ))
    have h2 : |(s : ℚ) / (w : ℚ)| ≤ |(s : ℚ)| := by
      rw [abs_div, abs_of_pos hwq]
      exact div_le_self (abs_nonneg _) hw1
    have h3 : |((Float64.roundHalfAway ((s : ℚ) / (w : ℚ)) : Int) : ℚ)|
        ≤ |((Float64.roundHalfAway ((s : ℚ) / (w : ℚ)) : Int) : ℚ) - (s : ℚ) / (w : ℚ)|
          + |(s : ℚ) / (w : ℚ)| := by
      have := abs_add (((Float64.roundHalfAway ((s : ℚ) / (w : ℚ)) : Int) : ℚ)
        - (s : ℚ) / (w : ℚ)) ((s : ℚ) / (w : ℚ))
      simpa using this
    have h4 : |((Float64.roundHalfAway ((s : ℚ) / (w : ℚ)) : Int) : ℚ)|
        < (2 : ℚ) ^ (52 : ℕ) + 1 := by linarith
    have h5 : |Float64.roundHalfAway ((s : ℚ) / (w : ℚ))| < 2 ^ 52 + 1 := by
      exact_mod_cast h4
    rw [abs_lt] at h5
    unfold isInt64
    constructor <;> omega
  rw [Float64.ofInt_exact hs53]
  by_cases hw : w < 2 ^ 53
  · have hwi : |(w : Int)| < 2 ^ 53 := by
      rw [abs_of_nonneg (by omega)]
      exact_mod_cast hw
    rw [Float64.ofInt_exact hwi, Int.cast_natCast]
    obtain ⟨y, hy1, hy2⟩ := Float64.ofRat_div_small hs hw0 hw
    rw [Float64.div_finite _ _ hwq.ne.symm, hy1, Float64.round_finite, hy2]
    exact Float64.toInt64_intCast hfit
  · have hw53 : 2 ^ 53 ≤ w := not_lt.mp hw
    have hw53q : (2 : ℚ) ^ (53 : ℕ) ≤ (w : ℚ) := by exact_mod_cast hw53
    -- the exact quotient rounds to zero
    have hsmall : ∀ d : ℚ, (2 : ℚ) ^ (53 : ℕ) ≤ d →
        |(s : ℚ) / d| ≤ ((2 : ℚ) ^ (52 : ℕ) - 1) / (2 : ℚ) ^ (53 : ℕ) := by
      intro d hd
      have hd0 : (0 : ℚ) < d := lt_of_lt_of_le (by positivity) hd
      have hs1 : |(s : ℚ)| ≤ (2 : ℚ) ^ (52 : ℕ) - 1 := by
        have h1 : |s| ≤ 2 ^ 52 - 1 := by omega
        exact_mod_cast h1
      rw [abs_div, abs_of_pos hd0]
      rw [div_le_div_iff₀ hd0 (by positivity)]
      have h3 : |(s : ℚ)| * (2 : ℚ) ^ (53 : ℕ) ≤ ((2 : ℚ) ^ (52 : ℕ) - 1) * (2 : ℚ) ^ (53 : ℕ) :=
        mul_le_mul_of_nonneg_right hs1 (by positivity)
      have h4 : ((2 : ℚ) ^ (52 : ℕ) - 1) * (2 : ℚ) ^ (53 : ℕ) ≤ ((2 : ℚ) ^ (52 : ℕ) - 1) * d :=
        mul_le_mul_of_nonneg_left hd (by norm_num)
      linarith
    have hexact : Float64.roundHalfAway ((s : ℚ) / (w : ℚ)) = 0 := by
      apply Float64.roundHalfAway_eq_zero
      have h1 := hsmall (w : ℚ) hw53q
      have h2 : ((2 : ℚ) ^ (52 : ℕ) - 1) / (2 : ℚ) ^ (53 : ℕ) < 1 / 2 := by norm_num
      linarith
    rw [hexact]
    unfold Float64.ofInt
    rw [Int.cast_natCast]
    rcases Float64.ofRat_natCast_large hw53 with hinf | ⟨d, hd1, hd2⟩
    · rw [hinf]
      have h0 : Float64.roundHalfAway 0 = 0 := Float64.roundHalfAway_eq_zero (by norm_num)
      show Float64.toInt64 (Float64.finite ((Float64.roundHalfAway 0 : Int) : ℚ)) = _
      rw [h0]
      exact Float64.toInt64_intCast (by unfold isInt64; omega)
    · have hd0 : (0 : ℚ) < d := lt_of_lt_of_le (by positivity) hd2
      obtain ⟨y, hy1, hy2⟩ := Float64.ofRat_lt_half (hsmall d hd2)
      rw [hd1, Float64.div_finite _ _ hd0.ne.symm, hy1, Float64.round_finite,
        Float64.roundHalfAway_eq_zero hy2]
      exact Float64.toInt64_intCast (by unfold isInt64; omega)

/-- The sum accumulated by the `range` loop, started from an `int64`. -/
theorem foldl_addInt64_eq (g : String × StorageResource → Int) (m : classResourceMap)
    (acc : Int) (hacc : isInt64 acc) :
    m.foldl (fun a kv => addInt64 a (g kv)) acc = wrapInt64 (acc + (m.map g).sum) := by
  induction m generalizing acc with
  | nil => simp [wrapInt64_of_isInt64 hacc]
  | cons kv rest ih =>
    rw [List.foldl_cons, ih (addInt64 acc (g kv)) (isInt64_wrapInt64 _)]
    unfold addInt64
    rw [wrapInt64_add_wrapInt64, List.map_cons, List.sum_cons, add_assoc]

/-- The per-class scores listed by `Forall₂` are the values of `classScoreValue`. -/
theorem scores_eq_map (raw : Int → Int) (m : classResourceMap) (scores : List Int)
    (h : List.Forall₂ (fun kv s =>
      buildScorerFunction.f raw kv.2.Requested kv.2.Capacity = GoResult.ok s) m scores) :
    scores = m.map (fun kv => classScoreValue raw kv.2.Requested kv.2.Capacity) := by
  induction h with
  | nil => rfl
  | cons hab _ ih =>
    rw [f_eq_ok] at hab
    rw [List.map_cons, ← ih]
    injection hab with hab
    rw [hab]

theorem buildScorerFunction_eq (raw : Int → Int) (m : classResourceMap) (hm : m ≠ []) :
    buildScorerFunction raw m
      = Float64.toInt64 (Float64.round (Float64.div
          (Float64.ofInt (wrapInt64
            (m.map (fun kv => classScoreValue raw kv.2.Requested kv.2.Capacity)).sum))
          (Float64.ofInt (m.length : Int)))) := by
  have hlen : m.length ≠ 0 := fun h => hm (List.length_eq_zero.mp h)
  unfold buildScorerFunction
  rw [if_neg hlen, loop_eq_foldl, foldl_addInt64_eq _ _ 0 (by unfold isInt64; omega), zero_add]

namespace Float64

/-! ## Evaluating the rounding at a given number -/

theorem binade_eq {q : ℚ} {e : Int} (hq : 0 < q) (he : -1022 ≤ e) (hlo : (2 : ℚ) ^ e ≤ q)
    (hhi : q < (2 : ℚ) ^ (e + 1)) : binade q = e := by
  have h1 : Int.log 2 q < e + 1 := log_lt_of_lt_two_zpow hq hhi
  have h2 : e ≤ Int.log 2 q := le_log_of_two_zpow_le hq hlo
  have h3 : Int.log 2 q = e := by omega
  rw [binade_of_pos hq (by omega), h3]

theorem roundHalfEven_eq_of_lt {x : ℚ} {R : Int} (h1 : (R : ℚ) - 1 / 2 < x)
    (h2 : x < (R : ℚ) + 1 / 2) : roundHalfEven x = R := by
  have hup : roundHalfEven x < R + 1 := by
    apply roundHalfEven_lt
    push_cast
    linarith
  have hdown : roundHalfEven (-x) < -R + 1 := by
    apply roundHalfEven_lt
    push_cast
    linarith
  rw [roundHalfEven_neg] at hdown
  omega

theorem roundHalfEven_tie_even {x : ℚ} {R : Int} (hx : x = (R : ℚ) + 1 / 2)
    (hR : R % 2 = 0) : roundHalfEven x = R := by
  have hfl : ⌊x⌋ = R := by
    rw [Int.floor_eq_iff]
    constructor <;> linarith
  unfold roundHalfEven
  rw [hfl]
  have h1 : ¬ (x - (R : ℚ) < 1 / 2) := by linarith
  have h2 : ¬ ((1 : ℚ) / 2 < x - (R : ℚ)) := by linarith
  rw [if_neg h1, if_neg h2, if_pos hR]

/-- The `float64` nearest to a positive rational, from its binade `e` and the rounded
53-bit significand `R`. -/
theorem ofRat_eval {q : ℚ} (e R : Int) (hq : 0 < q) (he : -1022 ≤ e)
    (hlo : (2 : ℚ) ^ e ≤ q) (hhi : q < (2 : ℚ) ^ (e + 1))
    (hR : roundHalfEven (q / (2 : ℚ) ^ (e - 52)) = R) (hR0 : 0 ≤ R)
    (hfin : (R : ℚ) * (2 : ℚ) ^ (e - 52) < (2 : ℚ) ^ (1024 : ℕ)) :
    ofRat q = finite ((R : ℚ) * (2 : ℚ) ^ (e - 52)) := by
  have hu : ulp q = (2 : ℚ) ^ (e - 52) := by
    unfold ulp
    rw [binade_eq hq he hlo hhi]
  have hlt : |(roundHalfEven (q / ulp q) : ℚ) * ulp q| < (2 : ℚ) ^ (1024 : ℕ) := by
    rw [hu, hR, abs_of_nonneg (mul_nonneg (by exact_mod_cast hR0) (by positivity))]
    exact hfin
  rw [ofRat_of_lt hlt, hu, hR]

end Float64

theorem Float64.roundHalfAway_tie (x : ℚ)
    (h : |((Float64.roundHalfAway x : Int) : ℚ) - x| = 1 / 2) :
    |x| < |((Float64.roundHalfAway x : Int) : ℚ)| := by
  unfold Float64.roundHalfAway at h ⊢
  split_ifs at h ⊢ with h0
  · have h1 : ((⌊x + 1 / 2⌋ : Int) : ℚ) ≤ x + 1 / 2 := Int.floor_le _
    have h2 : x + 1 / 2 < ((⌊x + 1 / 2⌋ : Int) : ℚ) + 1 := Int.lt_floor_add_one _
    rcases abs_eq (by norm_num : (0 : ℚ) ≤ 1 / 2) |>.mp h with h3 | h3
    · rw [abs_of_nonneg h0, abs_of_nonneg (by linarith)]
      linarith
    · exfalso
      linarith
  · have h1 : ((⌊-x + 1 / 2⌋ : Int) : ℚ) ≤ -x + 1 / 2 := Int.floor_le _
    have h2 : -x + 1 / 2 < ((⌊-x + 1 / 2⌋ : Int) : ℚ) + 1 := Int.lt_floor_add_one _
    push_cast at h ⊢
    have hx : x < 0 := not_le.mp h0
    rcases abs_eq (by norm_num : (0 : ℚ) ≤ 1 / 2) |>.mp h with h3 | h3
    · exfalso
      linarith
    · rw [abs_of_neg hx, abs_neg, abs_of_nonneg (by linarith)]
      linarith

/-- The shaped scorer on a non-empty map whose per-class scores sum to less than
`2^52` in magnitude: the exact mean, rounded half away from zero. -/
theorem buildScorerFunction_mean (raw : Int → Int) (m : classResourceMap) (scores : List Int)
    (hm : m ≠ [])
    (hscores : List.Forall₂ (fun kv s =>
      buildScorerFunction.f raw kv.2.Requested kv.2.Capacity = GoResult.ok s) m scores)
    (hsum : |scores.sum| < 2 ^ 52) :
    buildScorerFunction raw m
      = GoResult.ok (Float64.roundHalfAway ((scores.sum : ℚ) / (m.length : ℚ))) := by
  have hlen : 0 < m.length := List.length_pos.mpr hm
  rw [buildScorerFunction_eq raw m hm, ← scores_eq_map raw m scores hscores]
  have hfit : isInt64 scores.sum := by
    rw [abs_lt] at hsum
    unfold isInt64
    constructor <;> omega
  rw [wrapInt64_of_isInt64 hfit]
  exact Float64.round_div_ofInt hsum hlen

/-! ## The shaped scorer: rounded mean (C1) -/

theorem Float64.roundHalfAway_intCast (a : Int) : Float64.roundHalfAway (a : ℚ) = a := by
  have h := Float64.abs_roundHalfAway_sub_le (a : ℚ)
  rw [abs_le] at h
  have h1 : ((Float64.roundHalfAway (a : ℚ) : Int) : ℚ) < ((a + 1 : Int) : ℚ) := by
    push_cast; linarith
  have h2 : ((a - 1 : Int) : ℚ) < ((Float64.roundHalfAway (a : ℚ) : Int) : ℚ) := by
    push_cast; linarith
  have h3 := Int.cast_lt.mp h1
  have h4 := Int.cast_lt.mp h2
  omega

/-- The spec's end-to-end example of the shaped scorer. -/
theorem buildScorerFunction_example :
    buildScorerFunctionOfShape [⟨0, 0⟩, ⟨100, 100⟩]
      [("gold", ⟨50, 100⟩), ("silver", ⟨100, 50⟩)] = GoResult.ok 75 := by
  have h := buildScorerFunction_mean (BuildBrokenLinearFunction [⟨0, 0⟩, ⟨100, 100⟩])
    [("gold", ⟨50, 100⟩), ("silver", ⟨100, 50⟩)] [50, 100] (by decide)
    (List.Forall₂.cons (by decide) (List.Forall₂.cons (by decide) List.Forall₂.nil))
    (by decide)
  have h75 : (([50, 100] : List Int).sum : ℚ)
      / (([("gold", ⟨50, 100⟩), ("silver", ⟨100, 50⟩)] : classResourceMap).length : ℚ)
      = ((75 : Int) : ℚ) := by
    simp
    norm_num
  rw [h75, Float64.roundHalfAway_intCast] at h
  exact h

/-- C1 (amended): for every shape evaluator and every non-empty class resource map
whose per-class scores (one per class, each the value of the closure `f`) sum to
less than `2^52` in magnitude, the scorer returns the integer nearest to the sum
divided by the number of classes, ties rounded away from zero; with the identity
shape and the classes gold (50 of 100) and silver (100 of 50) the result is 75. -/
theorem shaped_scorer_returns_rounded_mean (rawScoringFunction : Int → Int)
    (classResources : classResourceMap) (scores : List Int)
    (hne : classResources ≠ [])
    (hscores : List.Forall₂ (fun kv s =>
      buildScorerFunction.f rawScoringFunction kv.2.Requested kv.2.Capacity = GoResult.ok s)
      classResources scores)
    (hsum : |scores.sum| < 2 ^ 52) :
    (∃ r : Int, buildScorerFunction rawScoringFunction classResources = GoResult.ok r ∧
      |(r : ℚ) - (scores.sum : ℚ) / (classResources.length : ℚ)| ≤ 1 / 2 ∧
      (|(r : ℚ) - (scores.sum : ℚ) / (classResources.length : ℚ)| = 1 / 2 →
        |(scores.sum : ℚ) / (classResources.length : ℚ)| < |(r : ℚ)|)) ∧
    buildScorerFunctionOfShape [⟨0, 0⟩, ⟨100, 100⟩]
      [("gold", ⟨50, 100⟩), ("silver", ⟨100, 50⟩)] = GoResult.ok 75 :=
  ⟨⟨_, buildScorerFunction_mean rawScoringFunction classResources scores hne hscores hsum,
      Float64.abs_roundHalfAway_sub_le _, Float64.roundHalfAway_tie _⟩,
    buildScorerFunction_example⟩

/-- Witness for C1 (amended): identity evaluator, classes with utilizations 33 and 66,
whose mean 49.5 is a tie and is rounded away from zero to 50. -/
theorem shaped_scorer_returns_rounded_mean_witness :
    ([("gold", ⟨1, 3⟩), ("silver", ⟨2, 3⟩)] : classResourceMap) ≠ [] ∧
    List.Forall₂ (fun kv s =>
      buildScorerFunction.f (fun u => u) kv.2.Requested kv.2.Capacity = GoResult.ok s)
      ([("gold", ⟨1, 3⟩), ("silver", ⟨2, 3⟩)] : classResourceMap) [33, 66] ∧
    |([33, 66] : List Int).sum| < 2 ^ 52 ∧
    buildScorerFunction (fun u => u) [("gold", ⟨1, 3⟩), ("silver", ⟨2, 3⟩)] = GoResult.ok 50 := by
  have hne : ([("gold", ⟨1, 3⟩), ("silver", ⟨2, 3⟩)] : classResourceMap) ≠ [] := by decide
  have hsc : List.Forall₂ (fun kv s =>
      buildScorerFunction.f (fun u => u) kv.2.Requested kv.2.Capacity = GoResult.ok s)
      ([("gold", ⟨1, 3⟩), ("silver", ⟨2, 3⟩)] : classResourceMap) [33, 66] :=
    List.Forall₂.cons (by decide) (List.Forall₂.cons (by decide) List.Forall₂.nil)
  have hsum : |([33, 66] : List Int).sum| < 2 ^ 52 := by decide
  refine ⟨hne, hsc, hsum, ?_⟩
  obtain ⟨⟨r, hr, hnear, htie⟩, _⟩ :=
    shaped_scorer_returns_rounded_mean (fun u => u) _ [33, 66] hne hsc hsum
  have hmean : (([33, 66] : List Int).sum : ℚ)
      / (([("gold", ⟨1, 3⟩), ("silver", ⟨2, 3⟩)] : classResourceMap).length : ℚ) = 99 / 2 := by
    norm_num
  rw [hmean] at hnear htie
  rw [hr]
  congr 1
  rw [abs_le] at hnear
  have h1 : ((49 : Int) : ℚ) ≤ (r : ℚ) := by push_cast; linarith
  have h2 : (r : ℚ) ≤ ((50 : Int) : ℚ) := by push_cast; linarith
  have h3 := Int.cast_le.mp h1
  have h4 := Int.cast_le.mp h2
  rcases (by omega : r = 49 ∨ r = 50) with h | h
  · exfalso
    subst h
    have h5 := htie (by norm_num)
    rw [abs_of_pos (by norm_num), abs_of_pos (by norm_num)] at h5
    norm_num at h5
  · exact h

/-- The conversion `float64(2^53 + 1)` is a tie between `2^53` and `2^53 + 2` and
yields `2^53`. -/
theorem Float64.ofInt_two_pow_53_add_one :
    Float64.ofInt 9007199254740993 = Float64.finite 9007199254740992 := by
  unfold Float64.ofInt
  have h := Float64.ofRat_eval (q := ((9007199254740993 : Int) : ℚ)) 53 4503599627370496
    (by norm_num) (by norm_num) (by norm_num) (by norm_num)
    (Float64.roundHalfEven_tie_even (by norm_num) (by decide)) (by norm_num) (by norm_num)
  rw [h]
  norm_num

theorem Float64.ofRat_two_pow_53 :
    Float64.ofRat 9007199254740992 = Float64.finite 9007199254740992 := by
  have h := Float64.ofRat_eval (q := (9007199254740992 : ℚ)) 53 4503599627370496
    (by norm_num) (by norm_num) (by norm_num) (by norm_num)
    (Float64.roundHalfEven_eq_of_lt (by norm_num) (by norm_num)) (by norm_num) (by norm_num)
  rw [h]
  norm_num

/-- Counterexample to C1 as stated: for the one-point shape with score `2^53 + 1` and
a single class, the per-class score is `2^53 + 1`, so the mean over the one class
is `2^53 + 1`, but the scorer returns `2^53`, which is a whole unit away from it. -/
theorem shaped_scorer_mean_counterexample :
    buildScorerFunction.f (BuildBrokenLinearFunction [⟨0, 9007199254740993⟩]) 0 0
        = GoResult.ok 9007199254740993 ∧
    buildScorerFunctionOfShape [⟨0, 9007199254740993⟩] [("gold", ⟨0, 0⟩)]
        = GoResult.ok 9007199254740992 ∧
    ¬ (|((9007199254740992 : Int) : ℚ)
        - ((9007199254740993 : Int) : ℚ)
          / ((([("gold", ⟨0, 0⟩)] : classResourceMap).length : ℕ) : ℚ)| ≤ 1 / 2) := by
  refine ⟨by decide, ?_, ?_⟩
  · have hsum : wrapInt64 (([("gold", ⟨0, 0⟩)] : classResourceMap).map (fun kv =>
        classScoreValue (BuildBrokenLinearFunction [⟨0, 9007199254740993⟩])
          kv.2.Requested kv.2.Capacity)).sum = 9007199254740993 := by decide
    have hone : Float64.ofInt ((([("gold", ⟨0, 0⟩)] : classResourceMap).length : ℕ) : Int)
        = Float64.finite 1 := by
      have := Float64.ofInt_exact (n := 1) (by norm_num)
      simpa using this
    have hround : Float64.roundHalfAway 9007199254740992 = 9007199254740992 := by
      exact_mod_cast Float64.roundHalfAway_intCast 9007199254740992
    unfold buildScorerFunctionOfShape
    rw [buildScorerFunction_eq _ _ (by decide), hsum, hone, Float64.ofInt_two_pow_53_add_one,
      Float64.div_finite _ _ (by norm_num), div_one, Float64.ofRat_two_pow_53,
      Float64.round_finite, hround]
    exact Float64.toInt64_intCast (by decide)
  · norm_num

/-! ## The shaped scorer: per-class score, empty map, order (C2, C3, C7, C10) -/

/-- C2: for every shape evaluator and every class whose Capacity is 0 or whose
Requested exceeds its Capacity, the per-class score is the evaluator at 100; with
the evaluator that returns its argument the score is 100, so the scaled utilization
handed to the shape function is exactly 100. -/
theorem shaped_scorer_saturates (rawScoringFunction : Int → Int) (requested capacity : Int)
    (h : capacity = 0 ∨ requested > capacity) :
    buildScorerFunction.f rawScoringFunction requested capacity
        = GoResult.ok (rawScoringFunction 100) ∧
    buildScorerFunction.f (fun u => u) requested capacity = GoResult.ok 100 := by
  unfold buildScorerFunction.f
  rw [if_pos h, if_pos h]
  exact ⟨rfl, rfl⟩

/-- Witness for C2: a class with Capacity 0 and one with Requested above Capacity. -/
theorem shaped_scorer_saturates_witness :
    ((0 : Int) = 0 ∨ (7 : Int) > 0) ∧ ((50 : Int) = 0 ∨ (100 : Int) > 50) ∧
    buildScorerFunction.f (BuildBrokenLinearFunction [⟨0, 0⟩, ⟨100, 10⟩]) 7 0
        = GoResult.ok (BuildBrokenLinearFunction [⟨0, 0⟩, ⟨100, 10⟩] 100) ∧
    buildScorerFunction.f (fun u => u) 100 50 = GoResult.ok 100 :=
  ⟨Or.inl rfl, Or.inr (by decide),
    (shaped_scorer_saturates (BuildBrokenLinearFunction [⟨0, 0⟩, ⟨100, 10⟩]) 7 0 (Or.inl rfl)).1,
    (shaped_scorer_saturates (fun u => u) 100 50 (Or.inr (by decide))).2⟩

/-- The per-class score below saturation: for every class with Capacity different
from 0 and Requested not greater than Capacity it is the shape evaluator at the
`int64` product `Requested * 100` divided by Capacity, truncated toward zero.  Only
when `Requested * 100` fits in an `int64` is this the evaluator at the exact product
divided by Capacity. -/
theorem shaped_scorer_scaled_utilization (rawScoringFunction : Int → Int)
    (requested capacity : Int) (hcap : capacity ≠ 0) (hreq : ¬ requested > capacity) :
    buildScorerFunction.f rawScoringFunction requested capacity
        = GoResult.ok (rawScoringFunction
            (wrapInt64 (Int.tdiv (mulInt64 requested maxUtilization) capacity))) ∧
    (isInt64 (requested * 100) →
      buildScorerFunction.f rawScoringFunction requested capacity
        = GoResult.ok (rawScoringFunction (Int.tdiv (requested * 100) capacity))) := by
  have hno : ¬ (capacity = 0 ∨ requested > capacity) := fun h => h.elim hcap hreq
  refine ⟨?_, f_of_fits rawScoringFunction requested capacity hcap hreq⟩
  rw [f_eq_ok]
  unfold classScoreValue
  rw [if_neg hno]

/-- An instance of the per-class score below saturation: Requested -1 of Capacity 3
gives -100 / 3 = -33 (truncation toward zero; the floor would be -34). -/
theorem shaped_scorer_scaled_utilization_witness :
    (3 : Int) ≠ 0 ∧ ¬ ((-1 : Int) > 3) ∧ isInt64 ((-1 : Int) * 100) ∧
    buildScorerFunction.f (fun u => u) (-1) 3 = GoResult.ok (-33) := by
  refine ⟨by decide, by decide, by decide, ?_⟩
  have h := (shaped_scorer_scaled_utilization (fun u => u) (-1) 3 (by decide) (by decide)).2
    (by decide)
  rw [h]
  decide

/-- C3 (evidence): the class with Requested 2 * 10^17 and Capacity 4 * 10^17 has a
Capacity different from 0 and a Requested not greater than it, and its exact
`Requested * 100 / Capacity` is 50.  The `int64` product `Requested * 100 = 2 * 10^19`
wraps to 1553255926290448384, so the closure evaluates the shape at 3, not at 50:
with the identity shape the per-class score is 3 where the shape at 50 gives 50. -/
theorem scaled_utilization_quotient_divergence :
    isInt64 200000000000000000 ∧ isInt64 400000000000000000 ∧
    (400000000000000000 : Int) ≠ 0 ∧
    ¬ ((200000000000000000 : Int) > 400000000000000000) ∧
    Int.tdiv (200000000000000000 * 100) 400000000000000000 = 50 ∧
    mulInt64 200000000000000000 maxUtilization = 1553255926290448384 ∧
    buildScorerFunction.f (fun u => u) 200000000000000000 400000000000000000
      = GoResult.ok 3 ∧
    buildScorerFunction.f (BuildBrokenLinearFunction [⟨0, 0⟩, ⟨100, 100⟩])
        200000000000000000 400000000000000000 = GoResult.ok 3 ∧
    BuildBrokenLinearFunction [⟨0, 0⟩, ⟨100, 100⟩]
        (Int.tdiv (200000000000000000 * 100) 400000000000000000) = 50 := by
  decide

/-- C7: for every shape evaluator, and so for every shape, the built scorer returns 0
on the empty class resource map. -/
theorem shaped_scorer_empty_map (rawScoringFunction : Int → Int) :
    buildScorerFunction rawScoringFunction [] = GoResult.ok 0 ∧
    ∀ shape : FunctionShape, buildScorerFunctionOfShape shape [] = GoResult.ok 0 :=
  ⟨rfl, fun _ => rfl⟩

/-- C10: for every shape evaluator and every two listings of the same class resource
map (one a permutation of the other), the built scorer returns the same result. -/
theorem shaped_scorer_order_independent (rawScoringFunction : Int → Int)
    (listing₁ listing₂ : classResourceMap) (h : listing₁.Perm listing₂) :
    buildScorerFunction rawScoringFunction listing₁
      = buildScorerFunction rawScoringFunction listing₂ := by
  by_cases hne : listing₁ = []
  · subst hne
    rw [List.nil_perm.mp h]
  · have hne2 : listing₂ ≠ [] := fun h2 => hne (by subst h2; exact List.perm_nil.mp h)
    rw [buildScorerFunction_eq _ _ hne, buildScorerFunction_eq _ _ hne2,
      (h.map _).sum_eq, h.length_eq]

/-- Witness for C10: the two listings of a two-class map. -/
theorem shaped_scorer_order_independent_witness :
    List.Perm ([("gold", ⟨50, 100⟩), ("silver", ⟨100, 50⟩)] : classResourceMap)
      [("silver", ⟨100, 50⟩), ("gold", ⟨50, 100⟩)] ∧
    buildScorerFunction (BuildBrokenLinearFunction [⟨0, 0⟩, ⟨100, 100⟩])
        [("gold", ⟨50, 100⟩), ("silver", ⟨100, 50⟩)]
      = buildScorerFunction (BuildBrokenLinearFunction [⟨0, 0⟩, ⟨100, 100⟩])
        [("silver", ⟨100, 50⟩), ("gold", ⟨50, 100⟩)] :=
  ⟨List.Perm.swap _ _ _,
    shaped_scorer_order_independent _ _ _ (List.Perm.swap _ _ _)⟩

/-! ## The dynamic-provisioning scorer: skipped requests and the empty map (C6, C8) -/

/-! ## The aggregation loop -/

theorem step_of_none (m : classResourceMap) (p : DynamicProvision) (h : p.Capacity = none) :
    dynamicProvisionScorerImpl.step m p = m := by
  unfold dynamicProvisionScorerImpl.step
  rw [h]

theorem step_ne_nil_of_some (m : classResourceMap) (p : DynamicProvision) (capacity : Int)
    (h : p.Capacity = some capacity) : dynamicProvisionScorerImpl.step m p ≠ [] := by
  unfold dynamicProvisionScorerImpl.step
  rw [h]
  simp only [ne_eq, List.map_eq_nil_iff]
  split_ifs with hany
  · intro hm
    rw [hm] at hany
    simp at hany
  · simp

theorem step_ne_nil_of_ne_nil (m : classResourceMap) (p : DynamicProvision) (hm : m ≠ []) :
    dynamicProvisionScorerImpl.step m p ≠ [] := by
  cases hcap : p.Capacity with
  | none => rw [step_of_none m p hcap]; exact hm
  | some capacity => exact step_ne_nil_of_some m p capacity hcap

theorem foldl_step_eq_nil_iff (ps : List DynamicProvision) (m : classResourceMap) :
    ps.foldl dynamicProvisionScorerImpl.step m = []
      ↔ m = [] ∧ ∀ p ∈ ps, p.Capacity = none := by
  induction ps generalizing m with
  | nil => simp
  | cons p rest ih =>
    rw [List.foldl_cons, ih]
    constructor
    · rintro ⟨hstep, hrest⟩
      have hm : m = [] := by
        by_contra hm
        exact step_ne_nil_of_ne_nil m p hm hstep
      have hp : p.Capacity = none := by
        cases hcap : p.Capacity with
        | none => rfl
        | some capacity => exact absurd hstep (step_ne_nil_of_some m p capacity hcap)
      refine ⟨hm, ?_⟩
      intro x hx
      rcases List.mem_cons.mp hx with hx | hx
      · rw [hx]; exact hp
      · exact hrest x hx
    · rintro ⟨hm, hall⟩
      refine ⟨?_, fun x hx => hall x (List.mem_cons_of_mem _ hx)⟩
      rw [step_of_none m p (hall p (List.mem_cons_self _ _))]
      exact hm

/-- C6: a request whose capacityInfo is absent leaves the aggregated map as it is
(it creates no entry and changes no Requested or Capacity), so inserting it into or
removing it from a request sequence, at any position, changes neither the
aggregated map nor the score of `dynamicProvisionScorerImpl`. -/
theorem absent_capacity_request_is_skipped (before after : List DynamicProvision)
    (provision : DynamicProvision) (h : provision.Capacity = none) :
    (∀ classResources : classResourceMap,
      dynamicProvisionScorerImpl.step classResources provision = classResources) ∧
    dynamicProvisionScorerImpl.aggregate (before ++ provision :: after)
      = dynamicProvisionScorerImpl.aggregate (before ++ after) ∧
    dynamicProvisionScorerImpl (before ++ provision :: after)
      = dynamicProvisionScorerImpl (before ++ after) := by
  have hagg : dynamicProvisionScorerImpl.aggregate (before ++ provision :: after)
      = dynamicProvisionScorerImpl.aggregate (before ++ after) := by
    unfold dynamicProvisionScorerImpl.aggregate
    rw [List.foldl_append, List.foldl_append, List.foldl_cons, step_of_none _ _ h]
  refine ⟨fun m => step_of_none m provision h, hagg, ?_⟩
  unfold dynamicProvisionScorerImpl
  rw [hagg]

/-- Witness for C6: a silver request without capacityInfo between two gold requests. -/
theorem absent_capacity_request_is_skipped_witness :
    (⟨⟨"silver", 70⟩, none⟩ : DynamicProvision).Capacity = none ∧
    dynamicProvisionScorerImpl.aggregate
        ([⟨⟨"gold", 20⟩, some 100⟩] ++ ⟨⟨"silver", 70⟩, none⟩ :: [⟨⟨"gold", 30⟩, some 150⟩])
      = dynamicProvisionScorerImpl.aggregate
        ([⟨⟨"gold", 20⟩, some 100⟩] ++ [⟨⟨"gold", 30⟩, some 150⟩]) ∧
    dynamicProvisionScorerImpl
        ([⟨⟨"gold", 20⟩, some 100⟩] ++ ⟨⟨"silver", 70⟩, none⟩ :: [⟨⟨"gold", 30⟩, some 150⟩])
      = dynamicProvisionScorerImpl
        ([⟨⟨"gold", 20⟩, some 100⟩] ++ [⟨⟨"gold", 30⟩, some 150⟩]) :=
  ⟨rfl, (absent_capacity_request_is_skipped [⟨⟨"gold", 20⟩, some 100⟩]
      [⟨⟨"gold", 30⟩, some 150⟩] ⟨⟨"silver", 70⟩, none⟩ rfl).2⟩

/-- C8: the aggregated map of `dynamicProvisionScorerImpl` is empty exactly when the
request sequence is empty or every request in it has absent capacityInfo, and
whenever the aggregated map is empty the function returns 0. -/
theorem dynamic_scorer_empty_aggregate (provisions : List DynamicProvision) :
    (dynamicProvisionScorerImpl.aggregate provisions = []
      ↔ (provisions = [] ∨ ∀ p ∈ provisions, p.Capacity = none)) ∧
    (dynamicProvisionScorerImpl.aggregate provisions = []
      → dynamicProvisionScorerImpl provisions = GoResult.ok 0) := by
  constructor
  · unfold dynamicProvisionScorerImpl.aggregate
    rw [foldl_step_eq_nil_iff]
    constructor
    · rintro ⟨_, hall⟩
      exact Or.inr hall
    · rintro (hnil | hall)
      · subst hnil
        exact ⟨rfl, by simp⟩
      · exact ⟨rfl, hall⟩
  · intro hagg
    unfold dynamicProvisionScorerImpl
    rw [hagg]
    rfl

/-! ## The dynamic-provisioning scorer: the aggregated entries (C4) -/

theorem classEntry_cons (k : String) (v : StorageResource) (rest : classResourceMap)
    (c : String) :
    classEntry ((k, v) :: rest) c = if k = c then some v else classEntry rest c := rfl

theorem classEntry_map_update (c k : String) (g : StorageResource → StorageResource)
    (m : classResourceMap) :
    classEntry (m.map (fun kv => if kv.1 == k then (kv.1, g kv.2) else kv)) c
      = (classEntry m c).map (fun v => if c = k then g v else v) := by
  induction m with
  | nil => rfl
  | cons kv rest ih =>
    obtain ⟨key, v⟩ := kv
    by_cases hk : key = k
    · have hhead : (if ((key, v).1 == k) = true then ((key, v).1, g (key, v).2) else (key, v))
          = (key, g v) := by simp [hk]
      simp only [List.map_cons, hhead, classEntry_cons, ih]
      by_cases hck : key = c
      · have hck2 : c = k := by rw [← hck, hk]
        simp [hck, hck2]
      · simp [hck]
    · have hhead : (if ((key, v).1 == k) = true then ((key, v).1, g (key, v).2) else (key, v))
          = (key, v) := by simp [hk]
      simp only [List.map_cons, hhead, classEntry_cons, ih]
      by_cases hck : key = c
      · have hck2 : ¬ c = k := by rw [← hck]; exact hk
        simp [hck, hck2]
      · simp [hck]

theorem classEntry_append_singleton (c k : String) (v : StorageResource)
    (m : classResourceMap) :
    classEntry (m ++ [(k, v)]) c
      = (classEntry m c).orElse (fun _ => if k = c then some v else none) := by
  induction m with
  | nil => simp [classEntry]
  | cons kv rest ih =>
    obtain ⟨key, w⟩ := kv
    by_cases hck : key = c
    · simp [classEntry, hck]
    · simp [classEntry, hck, ih]

theorem classEntry_eq_none_of_not_any (k : String) (m : classResourceMap)
    (h : ¬ (m.any (fun kv => kv.1 == k)) = true) : classEntry m k = none := by
  induction m with
  | nil => rfl
  | cons kv rest ih =>
    obtain ⟨key, w⟩ := kv
    simp only [List.any_cons, Bool.or_eq_true, not_or] at h
    have hk : ¬ key = k := by simpa using h.1
    simp [classEntry, hk, ih h.2]

theorem classEntry_isSome_of_any (k : String) (m : classResourceMap)
    (h : (m.any (fun kv => kv.1 == k)) = true) : ∃ v, classEntry m k = some v := by
  induction m with
  | nil => simp at h
  | cons kv rest ih =>
    obtain ⟨key, w⟩ := kv
    by_cases hk : key = k
    · exact ⟨w, by simp [classEntry, hk]⟩
    · simp only [List.any_cons, Bool.or_eq_true] at h
      rcases h with h | h
      · exact absurd (by simpa using h) hk
      · obtain ⟨v, hv⟩ := ih h
        exact ⟨v, by simp [classEntry, hk, hv]⟩

/-- The entry of a class after one iteration of the aggregation loop. -/
theorem classEntry_step (c : String) (m : classResourceMap) (p : DynamicProvision) :
    classEntry (dynamicProvisionScorerImpl.step m p) c
      = foldEntry (classEntry m c) (classRequests [p] c) := by
  unfold dynamicProvisionScorerImpl.step classRequests foldEntry
  cases hcap : p.Capacity with
  | none => simp [hcap]
  | some capacity =>
    simp only
    rw [classEntry_map_update c p.PVC.StorageClassName
      (fun v => { Requested := addInt64 v.Requested p.PVC.Requested,
                  Capacity := if capacity > v.Capacity then capacity else v.Capacity })]
    by_cases hc : p.PVC.StorageClassName = c
    · subst hc
      by_cases hany : (m.any (fun kv => kv.1 == p.PVC.StorageClassName)) = true
      · rw [if_pos hany]
        obtain ⟨v, hv⟩ := classEntry_isSome_of_any _ _ hany
        simp [hv, hcap]
      · rw [if_neg hany, classEntry_append_singleton, classEntry_eq_none_of_not_any _ _ hany]
        simp [hcap]
    · have hc2 : ¬ c = p.PVC.StorageClassName := fun h => hc h.symm
      by_cases hany : (m.any (fun kv => kv.1 == p.PVC.StorageClassName)) = true
      · rw [if_pos hany]
        simp [hc, hc2]
      · rw [if_neg hany, classEntry_append_singleton]
        simp [hc, hc2]

theorem classRequests_cons (p : DynamicProvision) (ps : List DynamicProvision) (c : String) :
    classRequests (p :: ps) c = classRequests [p] c ++ classRequests ps c := by
  unfold classRequests
  rw [← List.filterMap_append]
  rfl

theorem foldEntry_append (entry : Option StorageResource) (rs₁ rs₂ : List (Int × Int)) :
    foldEntry entry (rs₁ ++ rs₂) = foldEntry (foldEntry entry rs₁) rs₂ := by
  unfold foldEntry
  rw [List.foldl_append]

/-- The entry of a class after the whole aggregation loop. -/
theorem classEntry_foldl_step (c : String) (ps : List DynamicProvision) (m : classResourceMap) :
    classEntry (ps.foldl dynamicProvisionScorerImpl.step m) c
      = foldEntry (classEntry m c) (classRequests ps c) := by
  induction ps generalizing m with
  | nil => rfl
  | cons p rest ih =>
    rw [List.foldl_cons, ih, classEntry_step, classRequests_cons p rest, foldEntry_append]

/-- The entry built from an existing one: wrapped sum and running maximum. -/
theorem foldEntry_some (rs : List (Int × Int)) (r : StorageResource)
    (hr : isInt64 r.Requested) :
    ∃ r' : StorageResource, foldEntry (some r) rs = some r' ∧
      r'.Requested = wrapInt64 (r.Requested + (rs.map Prod.fst).sum) ∧
      r.Capacity ≤ r'.Capacity ∧
      (∀ rc ∈ rs, rc.2 ≤ r'.Capacity) ∧
      (r'.Capacity = r.Capacity ∨ ∃ rc ∈ rs, rc.2 = r'.Capacity) := by
  induction rs generalizing r with
  | nil =>
    refine ⟨r, rfl, ?_, le_refl _, ?_, Or.inl rfl⟩
    · simp [wrapInt64_of_isInt64 hr]
    · simp
  | cons rc rest ih =>
    obtain ⟨r', h1, h2, h3, h4, h5⟩ := ih
      { Requested := addInt64 r.Requested rc.1,
        Capacity := if rc.2 > r.Capacity then rc.2 else r.Capacity }
      (isInt64_wrapInt64 _)
    refine ⟨r', ?_, ?_, ?_, ?_, ?_⟩
    · unfold foldEntry at h1 ⊢
      rw [List.foldl_cons]
      exact h1
    · rw [h2]
      simp only [addInt64, List.map_cons, List.sum_cons]
      rw [wrapInt64_add_wrapInt64, add_assoc]
    · simp only at h3
      split_ifs at h3 <;> omega
    · intro x hx
      rcases List.mem_cons.mp hx with hx | hx
      · subst hx
        simp only at h3
        split_ifs at h3 <;> omega
      · exact h4 x hx
    · simp only at h5
      rcases h5 with h5 | ⟨x, hx, hx2⟩
      · split_ifs at h5 with hgt
        · exact Or.inr ⟨rc, List.mem_cons_self _ _, h5.symm⟩
        · exact Or.inl h5
      · exact Or.inr ⟨x, List.mem_cons_of_mem _ hx, hx2⟩

/-- The entry built from nothing by at least one request. -/
theorem foldEntry_none (rs : List (Int × Int)) (hne : rs ≠ []) :
    ∃ r' : StorageResource, foldEntry none rs = some r' ∧
      r'.Requested = wrapInt64 (rs.map Prod.fst).sum ∧
      0 ≤ r'.Capacity ∧
      (∀ rc ∈ rs, rc.2 ≤ r'.Capacity) ∧
      (r'.Capacity = 0 ∨ ∃ rc ∈ rs, rc.2 = r'.Capacity) := by
  cases rs with
  | nil => exact absurd rfl hne
  | cons rc rest =>
    have hfold : foldEntry none (rc :: rest) = foldEntry (some ⟨0, 0⟩) (rc :: rest) := by
      unfold foldEntry
      rfl
    obtain ⟨r', h1, h2, h3, h4, h5⟩ := foldEntry_some (rc :: rest) ⟨0, 0⟩ (by decide)
    refine ⟨r', by rw [hfold]; exact h1, ?_, h3, h4, h5⟩
    rw [h2]
    simp

/-- The aggregation loop never lists a class twice. -/
theorem keys_nodup_foldl_step (ps : List DynamicProvision) (m : classResourceMap)
    (hm : (m.map Prod.fst).Nodup) :
    ((ps.foldl dynamicProvisionScorerImpl.step m).map Prod.fst).Nodup := by
  induction ps generalizing m with
  | nil => exact hm
  | cons p rest ih =>
    rw [List.foldl_cons]
    apply ih
    unfold dynamicProvisionScorerImpl.step
    cases hcap : p.Capacity with
    | none => exact hm
    | some capacity =>
      simp only
      have hkeys : ∀ l : classResourceMap, (l.map (fun kv =>
          if kv.1 == p.PVC.StorageClassName then
            (kv.1, ({ Requested := addInt64 kv.2.Requested p.PVC.Requested,
                      Capacity := if capacity > kv.2.Capacity then capacity
                                  else kv.2.Capacity } : StorageResource))
          else kv)).map Prod.fst = l.map Prod.fst := by
        intro l
        rw [List.map_map]
        apply List.map_congr_left
        intro kv _
        simp only [Function.comp]
        split_ifs <;> rfl
      rw [hkeys]
      split_ifs with hany
      · exact hm
      · rw [List.map_append, List.map_singleton]
        apply List.Nodup.append hm (List.nodup_singleton _)
        rw [List.disjoint_singleton]
        intro hmem
        apply hany
        obtain ⟨kv, hkv, hk⟩ := List.mem_map.mp hmem
        rw [List.any_eq_true]
        exact ⟨kv, hkv, by simp [hk]⟩

/-- C4 (amended): for every request sequence and every storage class with at least
one request carrying capacityInfo, the aggregated map holds one entry for the class;
its Requested is the sum of those requests' requestedCapacity computed in `int64`
(the exact sum whenever that fits in an `int64`), and its Capacity is the larger of 0
and their maximum capacityValue (their maximum whenever one of them is not negative).
For class gold with capacities 100 and 150 and requested amounts 20 and 30 the
aggregate is Capacity 150, Requested 50. -/
theorem aggregate_sum_and_capped_maximum (provisions : List DynamicProvision)
    (storageClass : String) (hne : classRequests provisions storageClass ≠ []) :
    (∃ r : StorageResource,
      classEntry (dynamicProvisionScorerImpl.aggregate provisions) storageClass = some r ∧
      r.Requested = wrapInt64 ((classRequests provisions storageClass).map Prod.fst).sum ∧
      (isInt64 ((classRequests provisions storageClass).map Prod.fst).sum →
        r.Requested = ((classRequests provisions storageClass).map Prod.fst).sum) ∧
      0 ≤ r.Capacity ∧
      (∀ rc ∈ classRequests provisions storageClass, rc.2 ≤ r.Capacity) ∧
      (r.Capacity = 0 ∨ ∃ rc ∈ classRequests provisions storageClass, rc.2 = r.Capacity) ∧
      ((∃ rc ∈ classRequests provisions storageClass, 0 ≤ rc.2) →
        ∃ rc ∈ classRequests provisions storageClass, rc.2 = r.Capacity)) ∧
    ((dynamicProvisionScorerImpl.aggregate provisions).map Prod.fst).Nodup ∧
    dynamicProvisionScorerImpl.aggregate
        [⟨⟨"gold", 20⟩, some 100⟩, ⟨⟨"gold", 30⟩, some 150⟩]
      = [("gold", ⟨50, 150⟩)] := by
  refine ⟨?_, keys_nodup_foldl_step provisions [] List.nodup_nil, by decide⟩
  obtain ⟨r, h1, h2, h3, h4, h5⟩ := foldEntry_none _ hne
  refine ⟨r, ?_, h2, ?_, h3, h4, h5, ?_⟩
  · unfold dynamicProvisionScorerImpl.aggregate
    rw [classEntry_foldl_step]
    exact h1
  · intro hfit
    rw [h2, wrapInt64_of_isInt64 hfit]
  · rintro ⟨rc, hrc, hpos⟩
    rcases h5 with h5 | h5
    · have hle := h4 rc hrc
      exact ⟨rc, hrc, by omega⟩
    · exact h5

/-- Witness for C4 (amended): the spec's gold requests, with a silver request and a
request without capacityInfo in between. -/
theorem aggregate_sum_and_capped_maximum_witness :
    classRequests [⟨⟨"gold", 20⟩, some 100⟩, ⟨⟨"silver", 5⟩, some 10⟩,
        ⟨⟨"gold", 1⟩, none⟩, ⟨⟨"gold", 30⟩, some 150⟩] "gold" ≠ [] ∧
    classEntry (dynamicProvisionScorerImpl.aggregate
        [⟨⟨"gold", 20⟩, some 100⟩, ⟨⟨"silver", 5⟩, some 10⟩,
          ⟨⟨"gold", 1⟩, none⟩, ⟨⟨"gold", 30⟩, some 150⟩]) "gold" = some ⟨50, 150⟩ := by
  have hne : classRequests [⟨⟨"gold", 20⟩, some 100⟩, ⟨⟨"silver", 5⟩, some 10⟩,
      ⟨⟨"gold", 1⟩, none⟩, ⟨⟨"gold", 30⟩, some 150⟩] "gold" ≠ [] := by decide
  refine ⟨hne, ?_⟩
  obtain ⟨⟨r, h1, _, _, _, _, _, _⟩, _, _⟩ := aggregate_sum_and_capped_maximum _ "gold" hne
  rw [h1]
  have h2 : classEntry (dynamicProvisionScorerImpl.aggregate
      [⟨⟨"gold", 20⟩, some 100⟩, ⟨⟨"silver", 5⟩, some 10⟩,
        ⟨⟨"gold", 1⟩, none⟩, ⟨⟨"gold", 30⟩, some 150⟩]) "gold" = some ⟨50, 150⟩ := by decide
  rw [h1] at h2
  exact h2

/-- Counterexample to C4 as stated: two gold requests with capacityValue -5 and -7 and
requestedCapacity 2^62 each.  The aggregated Capacity is 0, not the maximum -5, and
the aggregated Requested is -2^63, not the sum 2^63. -/
theorem aggregate_maximum_counterexample :
    dynamicProvisionScorerImpl.aggregate
        [⟨⟨"gold", 4611686018427387904⟩, some (-5)⟩,
          ⟨⟨"gold", 4611686018427387904⟩, some (-7)⟩]
      = [("gold", ⟨-9223372036854775808, 0⟩)] ∧
    classRequests
        [⟨⟨"gold", 4611686018427387904⟩, some (-5)⟩,
          ⟨⟨"gold", 4611686018427387904⟩, some (-7)⟩] "gold"
      = [(4611686018427387904, -5), (4611686018427387904, -7)] ∧
    (0 : Int) ≠ max (-5) (-7) ∧
    (-9223372036854775808 : Int) ≠ 4611686018427387904 + 4611686018427387904 := by
  decide

/-! ## The dynamic-provisioning scorer: the floor of the mean (C5) -/

theorem Float64.mul_finite (a b : ℚ) :
    Float64.mul (Float64.finite a) (Float64.finite b) = Float64.ofRat (a * b) := rfl

theorem Float64.add_finite (a b : ℚ) :
    Float64.add (Float64.finite a) (Float64.finite b) = Float64.ofRat (a + b) := rfl

/-- The quotient `float64(29) / float64(100)`: the `float64` just below 0.29. -/
theorem Float64.ofRat_29_div_100 :
    Float64.ofRat (29 / 100) = Float64.finite (5224175567749775 / 18014398509481984) := by
  have h := Float64.ofRat_eval (q := (29 / 100 : ℚ)) (-2) 5224175567749775
    (by norm_num) (by norm_num) (by norm_num) (by norm_num)
    (Float64.roundHalfEven_eq_of_lt (by norm_num) (by norm_num)) (by norm_num) (by norm_num)
  rw [h]
  norm_num

/-- The product of that quotient with 100: the `float64` just below 29. -/
theorem Float64.ofRat_29_div_100_mul_100 :
    Float64.ofRat (5224175567749775 / 18014398509481984 * 100)
      = Float64.finite (8162774324609023 / 281474976710656) := by
  have h := Float64.ofRat_eval (q := (5224175567749775 / 18014398509481984 * 100 : ℚ)) 4
    8162774324609023
    (by norm_num) (by norm_num) (by norm_num) (by norm_num)
    (Float64.roundHalfEven_eq_of_lt (by norm_num) (by norm_num)) (by norm_num) (by norm_num)
  rw [h]
  norm_num

/-- The number just below 29 is a `float64`. -/
theorem Float64.ofRat_below_29 :
    Float64.ofRat (8162774324609023 / 281474976710656)
      = Float64.finite (8162774324609023 / 281474976710656) := by
  have h := Float64.ofRat_eval (q := (8162774324609023 / 281474976710656 : ℚ)) 4
    8162774324609023
    (by norm_num) (by norm_num) (by norm_num) (by norm_num)
    (Float64.roundHalfEven_eq_of_lt (by norm_num) (by norm_num)) (by norm_num) (by norm_num)
  rw [h]
  norm_num

theorem Float64.ofRat_one_quarter : Float64.ofRat (1 / 4) = Float64.finite (1 / 4) := by
  have h := Float64.ofRat_eval (q := (1 / 4 : ℚ)) (-2) 4503599627370496
    (by norm_num) (by norm_num) (by norm_num) (by norm_num)
    (Float64.roundHalfEven_eq_of_lt (by norm_num) (by norm_num)) (by norm_num) (by norm_num)
  rw [h]
  norm_num

theorem Float64.ofRat_25 : Float64.ofRat 25 = Float64.finite 25 := by
  have h := Float64.ofRat_natCast (m := 25) (by norm_num) (by norm_num)
  simpa using h

theorem Float64.ofInt_small (n : Int) (h : |n| < 2 ^ 53) (q : ℚ) (hq : (n : ℚ) = q) :
    Float64.ofInt n = Float64.finite q := by
  rw [Float64.ofInt_exact h, hq]

/-- C5 (evidence): for the single class gold with Requested 29 and Capacity 100 the
function returns 28, whereas the floor of the real-valued `(29 / 100) * 100` is 29:
`float64(29) / float64(100)` is rounded just below 0.29, and its product with 100
just below 29.  The spec's own example, Requested 50 and Capacity 200, returns 25. -/
theorem dynamic_scorer_floor_divergence :
    dynamicProvisionScorerImpl [⟨⟨"gold", 29⟩, some 100⟩] = GoResult.ok 28 ∧
    ⌊((29 : ℚ) / 100) * 100⌋ = 29 ∧
    dynamicProvisionScorerImpl [⟨⟨"gold", 50⟩, some 200⟩] = GoResult.ok 25 := by
  refine ⟨?_, ?_, ?_⟩
  · have hagg : dynamicProvisionScorerImpl.aggregate [⟨⟨"gold", 29⟩, some 100⟩]
        = [("gold", ⟨29, 100⟩)] := by decide
    have hfloor : ⌊(8162774324609023 / 281474976710656 : ℚ)⌋ = 28 := by
      rw [Int.floor_eq_iff]
      constructor <;> norm_num
    unfold dynamicProvisionScorerImpl
    rw [hagg]
    unfold dynamicProvisionScorerImpl.score
    rw [if_neg (by decide)]
    simp only [dynamicProvisionScorerImpl.sumLoop, List.length_singleton]
    rw [Float64.ofInt_small 29 (by norm_num) 29 (by norm_num),
      Float64.ofInt_small 100 (by norm_num) 100 (by norm_num),
      Float64.ofInt_small ((1 : ℕ) : Int) (by norm_num) 1 (by norm_num),
      Float64.div_finite _ _ (by norm_num), Float64.ofRat_29_div_100, Float64.mul_finite,
      Float64.ofRat_29_div_100_mul_100, Float64.add_finite, zero_add, Float64.ofRat_below_29,
      Float64.div_finite _ _ (by norm_num), div_one, Float64.ofRat_below_29,
      Float64.floor_finite, hfloor]
    exact Float64.toInt64_intCast (by decide)
  · rw [Int.floor_eq_iff]
    constructor <;> norm_num
  · have hagg : dynamicProvisionScorerImpl.aggregate [⟨⟨"gold", 50⟩, some 200⟩]
        = [("gold", ⟨50, 200⟩)] := by decide
    have hfloor : ⌊(25 : ℚ)⌋ = 25 := by
      rw [Int.floor_eq_iff]
      constructor <;> norm_num
    have hq : (50 : ℚ) / 200 = 1 / 4 := by norm_num
    have hm : (1 : ℚ) / 4 * 100 = 25 := by norm_num
    unfold dynamicProvisionScorerImpl
    rw [hagg]
    unfold dynamicProvisionScorerImpl.score
    rw [if_neg (by decide)]
    simp only [dynamicProvisionScorerImpl.sumLoop, List.length_singleton]
    rw [Float64.ofInt_small 50 (by norm_num) 50 (by norm_num),
      Float64.ofInt_small 200 (by norm_num) 200 (by norm_num),
      Float64.ofInt_small ((1 : ℕ) : Int) (by norm_num) 1 (by norm_num),
      Float64.div_finite _ _ (by norm_num), hq, Float64.ofRat_one_quarter, Float64.mul_finite,
      hm, Float64.ofRat_25, Float64.add_finite, zero_add, Float64.ofRat_25,
      Float64.div_finite _ _ (by norm_num), div_one, Float64.ofRat_25,
      Float64.floor_finite, hfloor]
    exact Float64.toInt64_intCast (by decide)

/-! ## The shaped scorer: monotonicity (C9) -/

/-- The identity shape `{(0,0), (100,100)}` clamps its argument to `[0, 100]`. -/
theorem identityShape_eval (p : Int) :
    BuildBrokenLinearFunction [⟨0, 0⟩, ⟨100, 100⟩] p
      = if p ≤ 0 then 0 else if p ≤ 100 then p else 100 := by
  unfold BuildBrokenLinearFunction
  simp only [BuildBrokenLinearFunction.from]
  split_ifs with h1 h2
  · rfl
  · have : (100 - 0) * (p - 0) = 100 * p := by ring
    rw [this, show ((100 : Int) - 0) = 100 by norm_num,
      Int.mul_tdiv_cancel_left p (by norm_num : (100 : Int) ≠ 0)]
    simp
  · rfl

/-- Without overflow of `Requested * 100` the per-class score is monotone in the
utilization `Requested / Capacity`, for every monotone shape evaluator. -/
theorem f_monotone_of_fits (raw : Int → Int) (hmono : ∀ a b : Int, a ≤ b → raw a ≤ raw b)
    (r₁ c₁ r₂ c₂ : Int) (hc₁ : 0 < c₁) (hc₂ : 0 < c₂) (hr₁ : 0 ≤ r₁) (hr₁c : r₁ ≤ c₁)
    (hr₂ : 0 ≤ r₂) (hr₂c : r₂ ≤ c₂) (hle : (r₁ : ℚ) / (c₁ : ℚ) ≤ (r₂ : ℚ) / (c₂ : ℚ))
    (hfit₁ : isInt64 (r₁ * 100)) (hfit₂ : isInt64 (r₂ * 100)) :
    ∃ s₁ s₂ : Int, buildScorerFunction.f raw r₁ c₁ = GoResult.ok s₁ ∧
      buildScorerFunction.f raw r₂ c₂ = GoResult.ok s₂ ∧ s₁ ≤ s₂ := by
  refine ⟨_, _, f_of_fits raw r₁ c₁ (by omega) (by omega) hfit₁,
    f_of_fits raw r₂ c₂ (by omega) (by omega) hfit₂, hmono _ _ ?_⟩
  rw [Int.tdiv_eq_ediv (by omega) (by omega), Int.tdiv_eq_ediv (by omega) (by omega)]
  have hc₁q : (0 : ℚ) < (c₁ : ℚ) := by exact_mod_cast hc₁
  have hc₂q : (0 : ℚ) < (c₂ : ℚ) := by exact_mod_cast hc₂
  have hcross : r₁ * c₂ ≤ r₂ * c₁ := by
    rw [div_le_div_iff₀ hc₁q hc₂q] at hle
    exact_mod_cast hle
  rw [Int.le_ediv_iff_mul_le hc₂]
  have h1 : r₁ * 100 / c₁ * c₁ ≤ r₁ * 100 := Int.ediv_mul_le _ (by omega)
  have h2 : r₁ * 100 / c₁ * c₁ * c₂ ≤ r₁ * 100 * c₂ :=
    Int.mul_le_mul_of_nonneg_right h1 (by omega)
  have h3 : r₁ * 100 / c₁ * c₂ * c₁ ≤ r₂ * 100 * c₁ := by
    have e1 : r₁ * 100 / c₁ * c₂ * c₁ = r₁ * 100 / c₁ * c₁ * c₂ := by ring
    have e2 : r₁ * 100 * c₂ = r₁ * c₂ * 100 := by ring
    have e3 : r₂ * 100 * c₁ = r₂ * c₁ * 100 := by ring
    rw [e1, e3]
    rw [e2] at h2
    omega
  exact le_of_mul_le_mul_right h3 hc₁

/-- C9 (evidence): the identity shape is monotone, the classes (1, 1) and
(92233720368547759, 92233720368547759) both have utilization 1, yet the first scores
100 and the second 0: `92233720368547759 * 100` exceeds `2^63 - 1` and wraps to a
negative `int64`, so the scaled utilization handed to the shape is -99. -/
theorem shaped_scorer_monotonicity_divergence :
    (∀ a b : Int, a ≤ b →
      BuildBrokenLinearFunction [⟨0, 0⟩, ⟨100, 100⟩] a
        ≤ BuildBrokenLinearFunction [⟨0, 0⟩, ⟨100, 100⟩] b) ∧
    isInt64 92233720368547759 ∧
    ((1 : ℚ) / 1 ≤ (92233720368547759 : ℚ) / 92233720368547759) ∧
    buildScorerFunction.f (BuildBrokenLinearFunction [⟨0, 0⟩, ⟨100, 100⟩]) 1 1
      = GoResult.ok 100 ∧
    buildScorerFunction.f (BuildBrokenLinearFunction [⟨0, 0⟩, ⟨100, 100⟩])
        92233720368547759 92233720368547759 = GoResult.ok 0 ∧
    buildScorerFunction.f (fun u => u) 92233720368547759 92233720368547759
      = GoResult.ok (-99) := by
  refine ⟨?_, by decide, by norm_num, by decide, by decide, by decide⟩
  intro a b hab
  rw [identityShape_eval, identityShape_eval]
  split_ifs <;> omega

/-! ## The dynamic-provisioning scorer: order of the requests (C11) -/

theorem addInt64_right_comm (a x y : Int) :
    addInt64 (addInt64 a x) y = addInt64 (addInt64 a y) x := by
  unfold addInt64
  rw [wrapInt64_add_wrapInt64, wrapInt64_add_wrapInt64]
  congr 1
  omega

theorem foldEntry_perm (entry : Option StorageResource) (rs₁ rs₂ : List (Int × Int))
    (h : rs₁.Perm rs₂) : foldEntry entry rs₁ = foldEntry entry rs₂ := by
  unfold foldEntry
  apply List.Perm.foldl_eq' h
  intro x _ y _ o
  simp only [Option.getD_some, Option.some.injEq, StorageResource.mk.injEq]
  refine ⟨addInt64_right_comm _ _ _, ?_⟩
  split_ifs <;> omega

theorem classRequests_perm (ps₁ ps₂ : List DynamicProvision) (c : String)
    (h : ps₁.Perm ps₂) : (classRequests ps₁ c).Perm (classRequests ps₂ c) := by
  unfold classRequests
  exact h.filterMap _

/-- Permuting the requests leaves every entry of the aggregated map as it is. -/
theorem classEntry_aggregate_perm (ps₁ ps₂ : List DynamicProvision) (h : ps₁.Perm ps₂)
    (c : String) :
    classEntry (dynamicProvisionScorerImpl.aggregate ps₁) c
      = classEntry (dynamicProvisionScorerImpl.aggregate ps₂) c := by
  unfold dynamicProvisionScorerImpl.aggregate
  rw [classEntry_foldl_step, classEntry_foldl_step]
  exact foldEntry_perm _ _ _ (classRequests_perm ps₁ ps₂ c h)

theorem mem_iff_classEntry (m : classResourceMap) (hnd : (m.map Prod.fst).Nodup)
    (k : String) (v : StorageResource) : (k, v) ∈ m ↔ classEntry m k = some v := by
  induction m with
  | nil => simp [classEntry]
  | cons kv rest ih =>
    obtain ⟨key, w⟩ := kv
    rw [List.map_cons, List.nodup_cons] at hnd
    rw [classEntry_cons, List.mem_cons]
    by_cases hk : key = k
    · subst hk
      rw [if_pos rfl]
      constructor
      · rintro (h | h)
        · injection h with _ h2
          rw [h2]
        · exact absurd (List.mem_map_of_mem Prod.fst h) hnd.1
      · intro h
        injection h with h
        exact Or.inl (by rw [h])
    · rw [if_neg hk, ← ih hnd.2]
      constructor
      · rintro (h | h)
        · injection h with h1 _
          exact absurd h1.symm hk
        · exact h
      · exact fun h => Or.inr h

/-- Permuting the requests permutes the listing of the aggregated map: the same
classes with the same Requested and Capacity. -/
theorem aggregate_perm (ps₁ ps₂ : List DynamicProvision) (h : ps₁.Perm ps₂) :
    (dynamicProvisionScorerImpl.aggregate ps₁).Perm
      (dynamicProvisionScorerImpl.aggregate ps₂) := by
  have hnd₁ := keys_nodup_foldl_step ps₁ [] List.nodup_nil
  have hnd₂ := keys_nodup_foldl_step ps₂ [] List.nodup_nil
  have hentry := classEntry_aggregate_perm ps₁ ps₂ h
  unfold dynamicProvisionScorerImpl.aggregate at hentry ⊢
  rw [List.perm_ext_iff_of_nodup (List.Nodup.of_map _ hnd₁) (List.Nodup.of_map _ hnd₂)]
  rintro ⟨k, v⟩
  rw [mem_iff_classEntry _ hnd₁, mem_iff_classEntry _ hnd₂, hentry k]

theorem Float64.roundHalfEven_tie_odd {x : ℚ} {R : Int} (hx : x = (R : ℚ) - 1 / 2)
    (hR : R % 2 = 0) : Float64.roundHalfEven x = R := by
  have hfl : ⌊x⌋ = R - 1 := by
    rw [Int.floor_eq_iff]
    push_cast
    constructor <;> linarith
  unfold Float64.roundHalfEven
  rw [hfl]
  have h1 : ¬ (x - ((R - 1 : Int) : ℚ) < 1 / 2) := by push_cast; linarith
  have h2 : ¬ ((1 : ℚ) / 2 < x - ((R - 1 : Int) : ℚ)) := by push_cast; linarith
  have h3 : ¬ ((R - 1) % 2 = 0) := by omega
  rw [if_neg h1, if_neg h2, if_neg h3]
  omega

theorem Float64.ofRat_5 : Float64.ofRat 5 = Float64.finite 5 := by
  have h := Float64.ofRat_natCast (m := 5) (by norm_num) (by norm_num)
  simpa using h

theorem Float64.ofRat_5_div_100 :
    Float64.ofRat (5 / 100) = Float64.finite (3602879701896397 / 72057594037927936) := by
  have h := Float64.ofRat_eval (q := ((5 / 100) : ℚ)) (-5) 7205759403792794
    (by norm_num) (by norm_num) (by norm_num) (by norm_num)
    (Float64.roundHalfEven_eq_of_lt (by norm_num) (by norm_num)) (by norm_num) (by norm_num)
  rw [h]
  norm_num

theorem Float64.ofRat_5_div_100_mul_100 :
    Float64.ofRat (3602879701896397 / 72057594037927936 * 100) = Float64.finite (5) := by
  have h := Float64.ofRat_eval
    (q := ((3602879701896397 / 72057594037927936 * 100) : ℚ)) 2 5629499534213120
    (by norm_num) (by norm_num) (by norm_num) (by norm_num)
    (Float64.roundHalfEven_eq_of_lt (by norm_num) (by norm_num)) (by norm_num) (by norm_num)
  rw [h]
  norm_num

theorem Float64.ofRat_5_add_below_29 :
    Float64.ofRat (5 + 8162774324609023 / 281474976710656) = Float64.finite (34) := by
  have h := Float64.ofRat_eval
    (q := ((5 + 8162774324609023 / 281474976710656) : ℚ)) 5 4785074604081152
    (by norm_num) (by norm_num) (by norm_num) (by norm_num)
    (Float64.roundHalfEven_tie_odd (by norm_num) (by decide)) (by norm_num) (by norm_num)
  rw [h]
  norm_num

theorem Float64.ofRat_34_add_below_29 :
    Float64.ofRat (34 + 8162774324609023 / 281474976710656) = Float64.finite (63) := by
  have h := Float64.ofRat_eval
    (q := ((34 + 8162774324609023 / 281474976710656) : ℚ)) 5 8866461766385664
    (by norm_num) (by norm_num) (by norm_num) (by norm_num)
    (Float64.roundHalfEven_tie_odd (by norm_num) (by decide)) (by norm_num) (by norm_num)
  rw [h]
  norm_num

theorem Float64.ofRat_63_div_3 :
    Float64.ofRat (63 / 3) = Float64.finite (21) := by
  have h := Float64.ofRat_eval (q := ((63 / 3) : ℚ)) 4 5910974510923776
    (by norm_num) (by norm_num) (by norm_num) (by norm_num)
    (Float64.roundHalfEven_eq_of_lt (by norm_num) (by norm_num)) (by norm_num) (by norm_num)
  rw [h]
  norm_num

theorem Float64.ofRat_below_29_add_below_29 :
    Float64.ofRat (8162774324609023 / 281474976710656 + 8162774324609023 / 281474976710656)
      = Float64.finite (8162774324609023 / 140737488355328) := by
  have h := Float64.ofRat_eval
    (q := ((8162774324609023 / 281474976710656 + 8162774324609023 / 281474976710656) : ℚ)) 5 8162774324609023
    (by norm_num) (by norm_num) (by norm_num) (by norm_num)
    (Float64.roundHalfEven_eq_of_lt (by norm_num) (by norm_num)) (by norm_num) (by norm_num)
  rw [h]
  norm_num

theorem Float64.ofRat_below_58_add_5 :
    Float64.ofRat (8162774324609023 / 140737488355328 + 5)
      = Float64.finite (8866461766385663 / 140737488355328) := by
  have h := Float64.ofRat_eval
    (q := ((8162774324609023 / 140737488355328 + 5) : ℚ)) 5 8866461766385663
    (by norm_num) (by norm_num) (by norm_num) (by norm_num)
    (Float64.roundHalfEven_eq_of_lt (by norm_num) (by norm_num)) (by norm_num) (by norm_num)
  rw [h]
  norm_num

theorem Float64.ofRat_below_63_div_3 :
    Float64.ofRat (8866461766385663 / 140737488355328 / 3)
      = Float64.finite (5910974510923775 / 281474976710656) := by
  have h := Float64.ofRat_eval
    (q := ((8866461766385663 / 140737488355328 / 3) : ℚ)) 4 5910974510923775
    (by norm_num) (by norm_num) (by norm_num) (by norm_num)
    (Float64.roundHalfEven_eq_of_lt (by norm_num) (by norm_num)) (by norm_num) (by norm_num)
  rw [h]
  norm_num

/-- The per-class term `(float64(5) / float64(100)) * 100` is 5. -/
theorem Float64.term_5_of_100 :
    Float64.mul (Float64.div (Float64.ofInt 5) (Float64.ofInt 100)) (Float64.finite 100)
      = Float64.finite 5 := by
  rw [Float64.ofInt_small 5 (by norm_num) 5 (by norm_num),
    Float64.ofInt_small 100 (by norm_num) 100 (by norm_num),
    Float64.div_finite _ _ (by norm_num), Float64.ofRat_5_div_100, Float64.mul_finite,
    Float64.ofRat_5_div_100_mul_100]

/-- The per-class term `(float64(29) / float64(100)) * 100` is just below 29. -/
theorem Float64.term_29_of_100 :
    Float64.mul (Float64.div (Float64.ofInt 29) (Float64.ofInt 100)) (Float64.finite 100)
      = Float64.finite (8162774324609023 / 281474976710656) := by
  rw [Float64.ofInt_small 29 (by norm_num) 29 (by norm_num),
    Float64.ofInt_small 100 (by norm_num) 100 (by norm_num),
    Float64.div_finite _ _ (by norm_num), Float64.ofRat_29_div_100, Float64.mul_finite,
    Float64.ofRat_29_div_100_mul_100]

/-- C11 (evidence): the requests gold (5 of 100), silver (29 of 100), bronze (29 of
100) and their permutation silver, bronze, gold build the same aggregated map (the
two listings are permutations of each other), but the `float64` sum of the per-class
terms 5, 28.999999999999996, 28.999999999999996 is 63 when gold is added first and
62.99999999999999 when gold is added last, so the returned score is 21 for one order
of summation and 20 for the other. -/
theorem dynamic_scorer_order_divergence :
    List.Perm
      ([⟨⟨"gold", 5⟩, some 100⟩, ⟨⟨"silver", 29⟩, some 100⟩, ⟨⟨"bronze", 29⟩, some 100⟩] :
        List DynamicProvision)
      [⟨⟨"silver", 29⟩, some 100⟩, ⟨⟨"bronze", 29⟩, some 100⟩, ⟨⟨"gold", 5⟩, some 100⟩] ∧
    dynamicProvisionScorerImpl.aggregate
        [⟨⟨"gold", 5⟩, some 100⟩, ⟨⟨"silver", 29⟩, some 100⟩, ⟨⟨"bronze", 29⟩, some 100⟩]
      = [("gold", ⟨5, 100⟩), ("silver", ⟨29, 100⟩), ("bronze", ⟨29, 100⟩)] ∧
    dynamicProvisionScorerImpl.aggregate
        [⟨⟨"silver", 29⟩, some 100⟩, ⟨⟨"bronze", 29⟩, some 100⟩, ⟨⟨"gold", 5⟩, some 100⟩]
      = [("silver", ⟨29, 100⟩), ("bronze", ⟨29, 100⟩), ("gold", ⟨5, 100⟩)] ∧
    List.Perm
      ([("gold", ⟨5, 100⟩), ("silver", ⟨29, 100⟩), ("bronze", ⟨29, 100⟩)] : classResourceMap)
      [("silver", ⟨29, 100⟩), ("bronze", ⟨29, 100⟩), ("gold", ⟨5, 100⟩)] ∧
    dynamicProvisionScorerImpl
        [⟨⟨"gold", 5⟩, some 100⟩, ⟨⟨"silver", 29⟩, some 100⟩, ⟨⟨"bronze", 29⟩, some 100⟩]
      = GoResult.ok 21 ∧
    dynamicProvisionScorerImpl
        [⟨⟨"silver", 29⟩, some 100⟩, ⟨⟨"bronze", 29⟩, some 100⟩, ⟨⟨"gold", 5⟩, some 100⟩]
      = GoResult.ok 20 := by
  have hagg₁ : dynamicProvisionScorerImpl.aggregate
      [⟨⟨"gold", 5⟩, some 100⟩, ⟨⟨"silver", 29⟩, some 100⟩, ⟨⟨"bronze", 29⟩, some 100⟩]
      = [("gold", ⟨5, 100⟩), ("silver", ⟨29, 100⟩), ("bronze", ⟨29, 100⟩)] := by decide
  have hagg₂ : dynamicProvisionScorerImpl.aggregate
      [⟨⟨"silver", 29⟩, some 100⟩, ⟨⟨"bronze", 29⟩, some 100⟩, ⟨⟨"gold", 5⟩, some 100⟩]
      = [("silver", ⟨29, 100⟩), ("bronze", ⟨29, 100⟩), ("gold", ⟨5, 100⟩)] := by decide
  have h3 : Float64.ofInt ((3 : ℕ) : Int) = Float64.finite 3 :=
    Float64.ofInt_small ((3 : ℕ) : Int) (by norm_num) 3 (by norm_num)
  have hfloor₁ : ⌊(21 : ℚ)⌋ = 21 := by
    rw [Int.floor_eq_iff]
    constructor <;> norm_num
  have hfloor₂ : ⌊(5910974510923775 / 281474976710656 : ℚ)⌋ = 20 := by
    rw [Int.floor_eq_iff]
    constructor <;> norm_num
  refine ⟨?_, hagg₁, hagg₂, ?_, ?_, ?_⟩
  · exact @List.perm_append_comm DynamicProvision [⟨⟨"gold", 5⟩, some 100⟩]
      [⟨⟨"silver", 29⟩, some 100⟩, ⟨⟨"bronze", 29⟩, some 100⟩]
  · exact @List.perm_append_comm (String × StorageResource) [("gold", ⟨5, 100⟩)]
      [("silver", ⟨29, 100⟩), ("bronze", ⟨29, 100⟩)]
  · unfold dynamicProvisionScorerImpl
    rw [hagg₁]
    unfold dynamicProvisionScorerImpl.score
    rw [if_neg (by decide)]
    simp only [dynamicProvisionScorerImpl.sumLoop, List.length_cons, List.length_nil]
    rw [Float64.term_5_of_100, Float64.term_29_of_100, h3, Float64.add_finite, zero_add,
      Float64.ofRat_5, Float64.add_finite, Float64.ofRat_5_add_below_29, Float64.add_finite,
      Float64.ofRat_34_add_below_29, Float64.div_finite _ _ (by norm_num),
      Float64.ofRat_63_div_3, Float64.floor_finite, hfloor₁]
    exact Float64.toInt64_intCast (by decide)
  · unfold dynamicProvisionScorerImpl
    rw [hagg₂]
    unfold dynamicProvisionScorerImpl.score
    rw [if_neg (by decide)]
    simp only [dynamicProvisionScorerImpl.sumLoop, List.length_cons, List.length_nil]
    rw [Float64.term_5_of_100, Float64.term_29_of_100, h3, Float64.add_finite, zero_add,
      Float64.ofRat_below_29, Float64.add_finite, Float64.ofRat_below_29_add_below_29,
      Float64.add_finite, Float64.ofRat_below_58_add_5, Float64.div_finite _ _ (by norm_num),
      Float64.ofRat_below_63_div_3, Float64.floor_finite, hfloor₂]
    exact Float64.toInt64_intCast (by decide)

/-! ## The shaped scorer: no division by zero (C12) -/

/-- The conversion `float64(w)` of a positive length is not zero. -/
theorem Float64.ofInt_natCast_ne_zero {w : ℕ} (hw : 0 < w) :
    Float64.ofInt (w : Int) ≠ Float64.finite 0 := by
  by_cases hlt : w < 2 ^ 53
  · have hwi : |(w : Int)| < 2 ^ 53 := by
      rw [abs_of_nonneg (by omega)]
      exact_mod_cast hlt
    rw [Float64.ofInt_exact hwi]
    intro h
    injection h with h
    have h0 : (w : ℚ) = 0 := by exact_mod_cast h
    have h1 : (0 : ℚ) < (w : ℚ) := by exact_mod_cast hw
    linarith
  · unfold Float64.ofInt
    rw [Int.cast_natCast]
    rcases Float64.ofRat_natCast_large (not_lt.mp hlt) with hinf | ⟨d, hd1, hd2⟩
    · rw [hinf]
      intro h
      cases h
    · rw [hd1]
      intro h
      injection h with h
      rw [h] at hd2
      norm_num at hd2

/-- C12: for every shape evaluator and every class resource map the built scorer
never divides by zero.  The integer division by Capacity is evaluated only with a
non-zero Capacity, so neither the closure `f` nor the scorer ends in the
division-by-zero panic; the scorer returns 0 for the empty map without dividing,
and for a non-empty map the divisor `float64(weightSum)` of the mean is not zero. -/
theorem shaped_scorer_never_divides_by_zero (rawScoringFunction : Int → Int)
    (classResources : classResourceMap) :
    buildScorerFunction rawScoringFunction classResources ≠ GoResult.panic ∧
    (∀ requested capacity : Int,
      buildScorerFunction.f rawScoringFunction requested capacity ≠ GoResult.panic) ∧
    (∀ requested capacity : Int, ¬ (capacity = 0 ∨ requested > capacity) →
      divInt64 (mulInt64 requested maxUtilization) capacity
        = GoResult.ok (wrapInt64 (Int.tdiv (mulInt64 requested maxUtilization) capacity))) ∧
    (∀ a : Int, divInt64 a 0 = GoResult.panic) ∧
    (classResources.length = 0 →
      buildScorerFunction rawScoringFunction classResources = GoResult.ok 0) ∧
    (classResources.length ≠ 0 →
      Float64.ofInt (classResources.length : Int) ≠ Float64.finite 0) := by
  refine ⟨?_, ?_, ?_, ?_, ?_, ?_⟩
  · by_cases hne : classResources = []
    · subst hne
      intro h
      cases h
    · rw [buildScorerFunction_eq _ _ hne]
      intro h
      generalize Float64.round (Float64.div
        (Float64.ofInt (wrapInt64 (classResources.map (fun kv =>
          classScoreValue rawScoringFunction kv.2.Requested kv.2.Capacity)).sum))
        (Float64.ofInt (classResources.length : Int))) = x at h
      cases x with
      | finite q =>
        simp only [Float64.toInt64] at h
        split_ifs at h
      | posInf => cases h
      | negInf => cases h
      | nan => cases h
  · intro requested capacity h
    rw [f_eq_ok] at h
    cases h
  · intro requested capacity hno
    have hc : capacity ≠ 0 := fun hc => hno (Or.inl hc)
    unfold divInt64
    rw [if_neg hc]
  · intro a
    unfold divInt64
    rw [if_pos rfl]
  · intro hlen
    unfold buildScorerFunction
    rw [if_pos hlen]
  · intro hlen
    exact Float64.ofInt_natCast_ne_zero (Nat.pos_of_ne_zero hlen)

/-! ## The dynamic-provisioning scorer: zero capacity and saturation (C13, C14) -/

theorem Float64.ofRat_200 :
    Float64.ofRat (200) = Float64.finite (200) := by
  have h := Float64.ofRat_natCast (m := 200) (by norm_num) (by norm_num)
  simpa using h

theorem Float64.ofRat_100_div_50 :
    Float64.ofRat (100 / 50) = Float64.finite (2) := by
  have h := Float64.ofRat_eval (q := ((100 / 50) : ℚ)) 1 4503599627370496
    (by norm_num) (by norm_num) (by norm_num) (by norm_num)
    (Float64.roundHalfEven_eq_of_lt (by norm_num) (by norm_num)) (by norm_num) (by norm_num)
  rw [h]
  norm_num

/-- C13: for the single request of class gold with requestedCapacity 10 and a present
capacityInfo of value 0, the aggregated map is non-empty and its gold entry has
Capacity exactly 0; the function does not test for it, so the per-class ratio is the
`float64` division of 10 by zero, an infinity (a NaN when Requested is 0 as well),
which runs through the sum, the mean and the floor into the final conversion to
`int64`, whose result the language leaves open. -/
theorem dynamic_scorer_divides_by_zero_capacity :
    dynamicProvisionScorerImpl.aggregate [⟨⟨"gold", 10⟩, some 0⟩] = [("gold", ⟨10, 0⟩)] ∧
    dynamicProvisionScorerImpl.aggregate [⟨⟨"gold", 10⟩, some 0⟩] ≠ [] ∧
    classEntry (dynamicProvisionScorerImpl.aggregate [⟨⟨"gold", 10⟩, some 0⟩]) "gold"
      = some ⟨10, 0⟩ ∧
    Float64.div (Float64.ofInt 10) (Float64.ofInt 0) = Float64.posInf ∧
    Float64.div (Float64.ofInt 0) (Float64.ofInt 0) = Float64.nan ∧
    dynamicProvisionScorerImpl [⟨⟨"gold", 10⟩, some 0⟩] = GoResult.unspecified := by
  have h10 : Float64.ofInt 10 = Float64.finite 10 :=
    Float64.ofInt_small 10 (by norm_num) 10 (by norm_num)
  have h0 : Float64.ofInt 0 = Float64.finite 0 :=
    Float64.ofInt_small 0 (by norm_num) 0 (by norm_num)
  have h1 : Float64.ofInt ((1 : ℕ) : Int) = Float64.finite 1 :=
    Float64.ofInt_small ((1 : ℕ) : Int) (by norm_num) 1 (by norm_num)
  have hdiv : Float64.div (Float64.finite 10) (Float64.finite 0) = Float64.posInf := by
    simp [Float64.div]
  have hmul : Float64.mul Float64.posInf (Float64.finite 100) = Float64.posInf := by
    simp [Float64.mul]
  have hmean : Float64.div Float64.posInf (Float64.finite 1) = Float64.posInf := by
    simp [Float64.div]
  refine ⟨by decide, by decide, by decide, ?_, ?_, ?_⟩
  · rw [h10, h0, hdiv]
  · rw [h0]
    simp [Float64.div]
  · have hagg : dynamicProvisionScorerImpl.aggregate [⟨⟨"gold", 10⟩, some 0⟩]
        = [("gold", ⟨10, 0⟩)] := by decide
    unfold dynamicProvisionScorerImpl
    rw [hagg]
    unfold dynamicProvisionScorerImpl.score
    rw [if_neg (by decide)]
    simp only [dynamicProvisionScorerImpl.sumLoop, List.length_singleton]
    rw [h10, h0, h1, hdiv, hmul]
    show Float64.toInt64 (Float64.floor (Float64.div Float64.posInf (Float64.finite 1)))
      = GoResult.unspecified
    rw [hmean]
    rfl

/-- C14: the dynamic-provisioning scorer applies no saturation cap.  For the single
class gold with Requested 100 and Capacity 50 it returns 200, which is greater than
100, whereas the shaped scorer with the identity shape returns 100 for that class. -/
theorem dynamic_scorer_has_no_saturation_cap :
    dynamicProvisionScorerImpl.aggregate [⟨⟨"gold", 100⟩, some 50⟩]
      = [("gold", ⟨100, 50⟩)] ∧
    dynamicProvisionScorerImpl [⟨⟨"gold", 100⟩, some 50⟩] = GoResult.ok 200 ∧
    (200 : Int) > 100 ∧
    buildScorerFunctionOfShape [⟨0, 0⟩, ⟨100, 100⟩] [("gold", ⟨100, 50⟩)]
      = GoResult.ok 100 := by
  refine ⟨by decide, ?_, by decide, ?_⟩
  · have hagg : dynamicProvisionScorerImpl.aggregate [⟨⟨"gold", 100⟩, some 50⟩]
        = [("gold", ⟨100, 50⟩)] := by decide
    have hfloor : ⌊(200 : ℚ)⌋ = 200 := by
      rw [Int.floor_eq_iff]
      constructor <;> norm_num
    have hm : (2 : ℚ) * 100 = 200 := by norm_num
    unfold dynamicProvisionScorerImpl
    rw [hagg]
    unfold dynamicProvisionScorerImpl.score
    rw [if_neg (by decide)]
    simp only [dynamicProvisionScorerImpl.sumLoop, List.length_singleton]
    rw [Float64.ofInt_small 100 (by norm_num) 100 (by norm_num),
      Float64.ofInt_small 50 (by norm_num) 50 (by norm_num),
      Float64.ofInt_small ((1 : ℕ) : Int) (by norm_num) 1 (by norm_num),
      Float64.div_finite _ _ (by norm_num), Float64.ofRat_100_div_50, Float64.mul_finite,
      hm, Float64.ofRat_200, Float64.add_finite, zero_add, Float64.ofRat_200,
      Float64.div_finite _ _ (by norm_num), div_one, Float64.ofRat_200,
      Float64.floor_finite, hfloor]
    exact Float64.toInt64_intCast (by decide)
  · have h := buildScorerFunction_mean (BuildBrokenLinearFunction [⟨0, 0⟩, ⟨100, 100⟩])
      [("gold", ⟨100, 50⟩)] [100] (by decide)
      (List.Forall₂.cons (by decide) List.Forall₂.nil) (by decide)
    have h100 : (([100] : List Int).sum : ℚ)
        / (([("gold", ⟨100, 50⟩)] : classResourceMap).length : ℚ) = ((100 : Int) : ℚ) := by
      norm_num
    rw [h100, Float64.roundHalfAway_intCast] at h
    exact h

/-! ## The shaped scorer: range of the scaled utilization (C15) -/

/-- Whenever `Requested * 100` fits in an `int64`, the scaled utilization of a class
with `0 <= Requested <= Capacity` and `Capacity > 0` lies between 0 and 100. -/
theorem scaled_utilization_in_range_of_fits (requested capacity : Int) (hc : 0 < capacity)
    (hr : 0 ≤ requested) (hrc : requested ≤ capacity) (hfit : isInt64 (requested * 100)) :
    ∃ u : Int, buildScorerFunction.f (fun u => u) requested capacity = GoResult.ok u ∧
      0 ≤ u ∧ u ≤ 100 := by
  refine ⟨_, f_of_fits (fun u => u) requested capacity (by omega) (by omega) hfit, ?_, ?_⟩
  · exact Int.tdiv_nonneg (by omega) (by omega)
  · rw [Int.tdiv_eq_ediv (by omega) (by omega)]
    exact Int.ediv_le_of_le_mul hc (by omega)

/-- C15 (evidence): Requested 10^17 and Capacity 10^17 are `int64` values with
`Capacity > 0` and `0 <= Requested <= Capacity`, but `Requested * 100 = 10^19` does not
fit in an `int64`: it wraps to -8446744073709551616, and the scaled utilization
handed to the shape function is -84, outside `[0, 100]`. -/
theorem scaled_utilization_overflow_divergence :
    isInt64 100000000000000000 ∧
    (0 : Int) < 100000000000000000 ∧
    (0 : Int) ≤ 100000000000000000 ∧
    (100000000000000000 : Int) ≤ 100000000000000000 ∧
    mulInt64 100000000000000000 maxUtilization = -8446744073709551616 ∧
    buildScorerFunction.f (fun u => u) 100000000000000000 100000000000000000
      = GoResult.ok (-84) ∧
    ¬ ((0 : Int) ≤ -84 ∧ (-84 : Int) ≤ 100) := by
  decide

/-! ## The shaped scorer: range of the score (C16) -/

theorem Float64.le_roundHalfAway {a : Int} {x : ℚ} (h : (a : ℚ) ≤ x) :
    a ≤ Float64.roundHalfAway x := by
  have h1 := Float64.abs_roundHalfAway_sub_le x
  rw [abs_le] at h1
  have h2 : ((a - 1 : Int) : ℚ) < ((Float64.roundHalfAway x : Int) : ℚ) := by
    push_cast
    linarith
  have h3 := Int.cast_lt.mp h2
  omega

theorem Float64.roundHalfAway_le {b : Int} {x : ℚ} (h : x ≤ (b : ℚ)) :
    Float64.roundHalfAway x ≤ b := by
  have h1 := Float64.abs_roundHalfAway_sub_le x
  rw [abs_le] at h1
  have h2 : ((Float64.roundHalfAway x : Int) : ℚ) < ((b + 1 : Int) : ℚ) := by
    push_cast
    linarith
  have h3 := Int.cast_lt.mp h2
  omega

theorem classScoreValue_mem_range (raw : Int → Int) (lo hi : Int)
    (hraw : ∀ p : Int, lo ≤ raw p ∧ raw p ≤ hi) (requested capacity : Int) :
    lo ≤ classScoreValue raw requested capacity ∧
      classScoreValue raw requested capacity ≤ hi := by
  unfold classScoreValue
  split_ifs
  · exact hraw _
  · exact hraw _

theorem sum_map_mem_range (g : String × StorageResource → Int) (lo hi : Int)
    (m : classResourceMap) (hg : ∀ kv, lo ≤ g kv ∧ g kv ≤ hi) :
    (m.length : Int) * lo ≤ (m.map g).sum ∧ (m.map g).sum ≤ (m.length : Int) * hi := by
  induction m with
  | nil => simp
  | cons kv rest ih =>
    have h := hg kv
    simp only [List.length_cons, List.map_cons, List.sum_cons]
    push_cast
    constructor
    · have e : ((rest.length : Int) + 1) * lo = (rest.length : Int) * lo + lo := by ring
      rw [e]
      omega
    · have e : ((rest.length : Int) + 1) * hi = (rest.length : Int) * hi + hi := by ring
      rw [e]
      omega

/-- C16 (amended): for every shape evaluator whose values all lie between integer
bounds lo and hi and every non-empty class resource map for which the number of
classes times the larger of |lo| and |hi| is below `2^52`, the built scorer returns a
score between lo and hi inclusive. -/
theorem shaped_scorer_score_within_bounds (rawScoringFunction : Int → Int) (lo hi : Int)
    (classResources : classResourceMap)
    (hraw : ∀ p : Int, lo ≤ rawScoringFunction p ∧ rawScoringFunction p ≤ hi)
    (hne : classResources ≠ [])
    (hsize : (classResources.length : Int) * max |lo| |hi| < 2 ^ 52) :
    ∃ r : Int, buildScorerFunction rawScoringFunction classResources = GoResult.ok r ∧
      lo ≤ r ∧ r ≤ hi := by
  have hlen : 0 < classResources.length := List.length_pos.mpr hne
  have hlenq : (0 : ℚ) < (classResources.length : ℚ) := by exact_mod_cast hlen
  obtain ⟨hlow, hhigh⟩ := sum_map_mem_range
    (fun kv => classScoreValue rawScoringFunction kv.2.Requested kv.2.Capacity) lo hi
    classResources (fun kv => classScoreValue_mem_range rawScoringFunction lo hi hraw _ _)
  set s : Int := (classResources.map (fun kv =>
    classScoreValue rawScoringFunction kv.2.Requested kv.2.Capacity)).sum with hs
  have hlen0 : (0 : Int) ≤ (classResources.length : Int) := by omega
  have hthi : (classResources.length : Int) * hi
      ≤ (classResources.length : Int) * max |lo| |hi| :=
    Int.mul_le_mul_of_nonneg_left (le_trans (le_abs_self hi) (le_max_right _ _)) hlen0
  have htlo : -((classResources.length : Int) * max |lo| |hi|)
      ≤ (classResources.length : Int) * lo := by
    have h1 : -max |lo| |hi| ≤ lo := by
      have := neg_abs_le lo
      have := le_max_left |lo| |hi|
      omega
    have h2 := Int.mul_le_mul_of_nonneg_left h1 hlen0
    have e : (classResources.length : Int) * -max |lo| |hi|
        = -((classResources.length : Int) * max |lo| |hi|) := by ring
    rw [e] at h2
    exact h2
  have hsabs : |s| < 2 ^ 52 := by
    rw [abs_lt]
    constructor <;> omega
  have hfit : isInt64 s := by
    rw [abs_lt] at hsabs
    unfold isInt64
    constructor <;> omega
  refine ⟨Float64.roundHalfAway ((s : ℚ) / (classResources.length : ℚ)), ?_, ?_, ?_⟩
  · rw [buildScorerFunction_eq _ _ hne, ← hs, wrapInt64_of_isInt64 hfit]
    exact Float64.round_div_ofInt hsabs hlen
  · apply Float64.le_roundHalfAway
    rw [le_div_iff₀ hlenq]
    have : ((lo * (classResources.length : Int) : Int) : ℚ) ≤ ((s : Int) : ℚ) := by
      apply Int.cast_le.mpr
      rw [mul_comm]
      exact hlow
    push_cast at this
    exact this
  · apply Float64.roundHalfAway_le
    rw [div_le_iff₀ hlenq]
    have : ((s : Int) : ℚ) ≤ ((hi * (classResources.length : Int) : Int) : ℚ) := by
      apply Int.cast_le.mpr
      rw [mul_comm]
      exact hhigh
    push_cast at this
    exact this

/-- Witness for C16 (amended): the identity shape, whose values lie between 0 and 100,
and a map of two classes. -/
theorem shaped_scorer_score_within_bounds_witness :
    (∀ p : Int, 0 ≤ BuildBrokenLinearFunction [⟨0, 0⟩, ⟨100, 100⟩] p ∧
      BuildBrokenLinearFunction [⟨0, 0⟩, ⟨100, 100⟩] p ≤ 100) ∧
    ([("gold", ⟨1, 3⟩), ("silver", ⟨2, 3⟩)] : classResourceMap) ≠ [] ∧
    ((([("gold", ⟨1, 3⟩), ("silver", ⟨2, 3⟩)] : classResourceMap).length : ℕ) : Int)
      * max |(0 : Int)| |(100 : Int)| < 2 ^ 52 ∧
    ∃ r : Int, buildScorerFunction (BuildBrokenLinearFunction [⟨0, 0⟩, ⟨100, 100⟩])
        [("gold", ⟨1, 3⟩), ("silver", ⟨2, 3⟩)] = GoResult.ok r ∧ 0 ≤ r ∧ r ≤ 100 := by
  have hraw : ∀ p : Int, 0 ≤ BuildBrokenLinearFunction [⟨0, 0⟩, ⟨100, 100⟩] p ∧
      BuildBrokenLinearFunction [⟨0, 0⟩, ⟨100, 100⟩] p ≤ 100 := by
    intro p
    rw [identityShape_eval]
    split_ifs <;> omega
  have hne : ([("gold", ⟨1, 3⟩), ("silver", ⟨2, 3⟩)] : classResourceMap) ≠ [] := by decide
  have hsize : ((([("gold", ⟨1, 3⟩), ("silver", ⟨2, 3⟩)] : classResourceMap).length : ℕ) : Int)
      * max |(0 : Int)| |(100 : Int)| < 2 ^ 52 := by decide
  exact ⟨hraw, hne, hsize,
    shaped_scorer_score_within_bounds _ 0 100 _ hraw hne hsize⟩

theorem Float64.ofRat_two_pow_63 :
    Float64.ofRat (9223372036854775808) = Float64.finite (9223372036854775808) := by
  have h := Float64.ofRat_eval (q := ((9223372036854775808) : ℚ)) 63 4503599627370496
    (by norm_num) (by norm_num) (by norm_num) (by norm_num)
    (Float64.roundHalfEven_eq_of_lt (by norm_num) (by norm_num)) (by norm_num) (by norm_num)
  rw [h]
  norm_num

theorem Float64.ofRat_two_pow_62 :
    Float64.ofRat (4611686018427387904) = Float64.finite (4611686018427387904) := by
  have h := Float64.ofRat_eval (q := ((4611686018427387904) : ℚ)) 62 4503599627370496
    (by norm_num) (by norm_num) (by norm_num) (by norm_num)
    (Float64.roundHalfEven_eq_of_lt (by norm_num) (by norm_num)) (by norm_num) (by norm_num)
  rw [h]
  norm_num

/-- Counterexample to C16 as stated: the one-point shape with score `2^62` has all its
values between lo = hi = `2^62`; on a map of two classes the `int64` sum of the two
per-class scores wraps to `-2^63`, and the scorer returns `-2^62`, below lo. -/
theorem shaped_scorer_bounds_counterexample :
    (∀ p : Int, 4611686018427387904 ≤ BuildBrokenLinearFunction [⟨0, 4611686018427387904⟩] p ∧
      BuildBrokenLinearFunction [⟨0, 4611686018427387904⟩] p ≤ 4611686018427387904) ∧
    ([("gold", ⟨0, 0⟩), ("silver", ⟨0, 0⟩)] : classResourceMap) ≠ [] ∧
    buildScorerFunctionOfShape [⟨0, 4611686018427387904⟩]
        [("gold", ⟨0, 0⟩), ("silver", ⟨0, 0⟩)] = GoResult.ok (-4611686018427387904) ∧
    ¬ ((4611686018427387904 : Int) ≤ -4611686018427387904) := by
  refine ⟨?_, by decide, ?_, by decide⟩
  · intro p
    unfold BuildBrokenLinearFunction
    simp only [BuildBrokenLinearFunction.from]
    split_ifs <;> omega
  · have hsum : wrapInt64 (([("gold", ⟨0, 0⟩), ("silver", ⟨0, 0⟩)] : classResourceMap).map
        (fun kv => classScoreValue (BuildBrokenLinearFunction [⟨0, 4611686018427387904⟩])
          kv.2.Requested kv.2.Capacity)).sum = -9223372036854775808 := by decide
    have htwo : Float64.ofInt
        ((([("gold", ⟨0, 0⟩), ("silver", ⟨0, 0⟩)] : classResourceMap).length : ℕ) : Int)
        = Float64.finite 2 := by
      have := Float64.ofInt_exact (n := 2) (by norm_num)
      simpa using this
    have hmin : Float64.ofInt (-9223372036854775808)
        = Float64.finite (-9223372036854775808) := by
      unfold Float64.ofInt
      have e : (((-9223372036854775808 : Int)) : ℚ) = -(9223372036854775808 : ℚ) := by
        norm_num
      rw [e, Float64.ofRat_neg, Float64.ofRat_two_pow_63]
      rfl
    have hquot : Float64.ofRat (-9223372036854775808 / 2)
        = Float64.finite (-4611686018427387904) := by
      have e : (-9223372036854775808 / 2 : ℚ) = -(4611686018427387904 : ℚ) := by norm_num
      rw [e, Float64.ofRat_neg, Float64.ofRat_two_pow_62]
      rfl
    have hround : Float64.roundHalfAway (-4611686018427387904) = -4611686018427387904 := by
      exact_mod_cast Float64.roundHalfAway_intCast (-4611686018427387904)
    unfold buildScorerFunctionOfShape
    rw [buildScorerFunction_eq _ _ (by decide), hsum, htwo, hmin,
      Float64.div_finite _ _ (by norm_num), hquot, Float64.round_finite, hround]
    exact_mod_cast Float64.toInt64_intCast (r := -4611686018427387904) (by decide)

/-! ## The two scorers on one class (C17) -/

/-- The quotient `float64(57) / float64(100)`: the `float64` just below 0.57. -/
theorem Float64.ofRat_57_div_100 :
    Float64.ofRat (57 / 100) = Float64.finite (5134103575202365 / 9007199254740992) := by
  have h := Float64.ofRat_eval (q := ((57 / 100) : ℚ)) (-1) 5134103575202365
    (by norm_num) (by norm_num) (by norm_num) (by norm_num)
    (Float64.roundHalfEven_eq_of_lt (by norm_num) (by norm_num)) (by norm_num) (by norm_num)
  rw [h]
  norm_num

/-- The product of that quotient with 100: the `float64` just below 57. -/
theorem Float64.ofRat_57_div_100_mul_100 :
    Float64.ofRat (5134103575202365 / 9007199254740992 * 100)
      = Float64.finite (8022036836253695 / 140737488355328) := by
  have h := Float64.ofRat_eval
    (q := ((5134103575202365 / 9007199254740992 * 100) : ℚ)) 5 8022036836253695
    (by norm_num) (by norm_num) (by norm_num) (by norm_num)
    (Float64.roundHalfEven_eq_of_lt (by norm_num) (by norm_num)) (by norm_num) (by norm_num)
  rw [h]
  norm_num

/-- The number just below 57 is a `float64`. -/
theorem Float64.ofRat_below_57 :
    Float64.ofRat (8022036836253695 / 140737488355328)
      = Float64.finite (8022036836253695 / 140737488355328) := by
  have h := Float64.ofRat_eval (q := ((8022036836253695 / 140737488355328) : ℚ)) 5 8022036836253695
    (by norm_num) (by norm_num) (by norm_num) (by norm_num)
    (Float64.roundHalfEven_eq_of_lt (by norm_num) (by norm_num)) (by norm_num) (by norm_num)
  rw [h]
  norm_num

/-- C17 (evidence): for the single class gold with Requested 57 and Capacity 100
(`Capacity > 0`, `0 <= Requested <= Capacity`) the integer quotient
`Requested * 100 / Capacity` is 57 and the shaped scorer with the identity shape
returns 57, but `dynamicProvisionScorerImpl` returns 56: `float64(57) / float64(100)`
is rounded just below 0.57 and its product with 100 just below 57. -/
theorem dynamic_and_shaped_scorer_divergence :
    (0 : Int) < 100 ∧ (0 : Int) ≤ 57 ∧ (57 : Int) ≤ 100 ∧
    Int.tdiv (57 * 100) 100 = 57 ∧
    buildScorerFunctionOfShape [⟨0, 0⟩, ⟨100, 100⟩] [("gold", ⟨57, 100⟩)]
      = GoResult.ok 57 ∧
    dynamicProvisionScorerImpl [⟨⟨"gold", 57⟩, some 100⟩] = GoResult.ok 56 := by
  refine ⟨by decide, by decide, by decide, by decide, ?_, ?_⟩
  · have h := buildScorerFunction_mean (BuildBrokenLinearFunction [⟨0, 0⟩, ⟨100, 100⟩])
      [("gold", ⟨57, 100⟩)] [57] (by decide)
      (List.Forall₂.cons (by decide) List.Forall₂.nil) (by decide)
    have h57 : (([57] : List Int).sum : ℚ)
        / (([("gold", ⟨57, 100⟩)] : classResourceMap).length : ℚ) = ((57 : Int) : ℚ) := by
      norm_num
    rw [h57, Float64.roundHalfAway_intCast] at h
    exact h
  · have hagg : dynamicProvisionScorerImpl.aggregate [⟨⟨"gold", 57⟩, some 100⟩]
        = [("gold", ⟨57, 100⟩)] := by decide
    have hfloor : ⌊(8022036836253695 / 140737488355328 : ℚ)⌋ = 56 := by
      rw [Int.floor_eq_iff]
      constructor <;> norm_num
    unfold dynamicProvisionScorerImpl
    rw [hagg]
    unfold dynamicProvisionScorerImpl.score
    rw [if_neg (by decide)]
    simp only [dynamicProvisionScorerImpl.sumLoop, List.length_singleton]
    rw [Float64.ofInt_small 57 (by norm_num) 57 (by norm_num),
      Float64.ofInt_small 100 (by norm_num) 100 (by norm_num),
      Float64.ofInt_small ((1 : ℕ) : Int) (by norm_num) 1 (by norm_num),
      Float64.div_finite _ _ (by norm_num), Float64.ofRat_57_div_100, Float64.mul_finite,
      Float64.ofRat_57_div_100_mul_100, Float64.add_finite, zero_add, Float64.ofRat_below_57,
      Float64.div_finite _ _ (by norm_num), div_one, Float64.ofRat_below_57,
      Float64.floor_finite, hfloor]
    exact Float64.toInt64_intCast (by decide)

end VolumeBinding
